import Mathlib

/-!
Verification development for the EPIC repository (an RRDP-fed relay that
builds and serves the draft "Erik" synchronization index over RPKI
manifests).  The Rust sources under `src/` are shallowly embedded:

* bytes are `List Nat`, digests are the output of an explicit hash-function
  parameter (`CryptoEnv.sha256`), so that hash-collision assumptions are
  visible as injectivity hypotheses;
* `HashMap` is an association list whose iteration order is one admissible
  order (insertion order, with `insert` replacing in place);
* library primitives that the repository only calls (CMS manifest decoding,
  SHA-256) are uninterpreted function parameters carried in `CryptoEnv`;
* network fetches are resolved before the transition functions run: the
  notification file carries the snapshot and delta contents it references.
-/

namespace EPIC

/-! ## Association lists (the embedding of `HashMap`) -/

/-- Lookup in an association list: first binding wins, as in `HashMap::get`. -/
def alistLookup {κ α : Type} [DecidableEq κ] : List (κ × α) → κ → Option α
  | [], _ => none
  | kv :: t, k => if k = kv.1 then some kv.2 else alistLookup t k

/-- Insert with replacement, as in `HashMap::insert`: an existing binding for
the key is overwritten in place, otherwise the binding is appended. -/
def alistInsert {κ α : Type} [DecidableEq κ] : List (κ × α) → κ → α → List (κ × α)
  | [], k, v => [(k, v)]
  | kv :: t, k, v => if k = kv.1 then (k, v) :: t else kv :: alistInsert t k v

/-- Insert only when the key is absent, as in `map.entry(k).or_insert(v)`. -/
def alistInsertIfAbsent {κ α : Type} [DecidableEq κ]
    (m : List (κ × α)) (k : κ) (v : α) : List (κ × α) :=
  if (alistLookup m k).isSome then m else m ++ [(k, v)]

theorem alistLookup_insert_self {κ α : Type} [DecidableEq κ]
    (m : List (κ × α)) (k : κ) (v : α) :
    alistLookup (alistInsert m k v) k = some v := by
  induction m with
  | nil => simp [alistInsert, alistLookup]
  | cons kv t ih =>
    by_cases h : k = kv.1 <;> simp [alistInsert, alistLookup, h, ih]

theorem alistLookup_insert_ne {κ α : Type} [DecidableEq κ]
    (m : List (κ × α)) (k k' : κ) (v : α) (h : k' ≠ k) :
    alistLookup (alistInsert m k v) k' = alistLookup m k' := by
  induction m with
  | nil => simp [alistInsert, alistLookup, h]
  | cons kv t ih =>
    by_cases hk : k = kv.1
    · subst hk
      simp [alistInsert, alistLookup, h]
    · by_cases hk' : k' = kv.1 <;> simp [alistInsert, alistLookup, hk, hk', ih]

theorem alistLookup_append_single {κ α : Type} [DecidableEq κ]
    (m : List (κ × α)) (k k' : κ) (v : α) :
    alistLookup (m ++ [(k, v)]) k' =
      match alistLookup m k' with
      | some v' => some v'
      | none => if k' = k then some v else none := by
  induction m with
  | nil => simp [alistLookup]
  | cons kv t ih =>
    by_cases hk' : k' = kv.1 <;> simp [alistLookup, hk', ih]

theorem alistLookup_insertIfAbsent {κ α : Type} [DecidableEq κ]
    (m : List (κ × α)) (k k' : κ) (v : α) :
    alistLookup (alistInsertIfAbsent m k v) k' =
      if (alistLookup m k').isSome then alistLookup m k'
      else if k' = k then some v else none := by
  unfold alistInsertIfAbsent
  by_cases hm : (alistLookup m k).isSome
  · simp only [hm, if_true]
    cases h : alistLookup m k' with
    | some v' => simp [h]
    | none =>
      simp only [h, Option.isSome_none, Bool.false_eq_true, if_false]
      by_cases hk : k' = k
      · subst hk
        rw [h] at hm
        simp at hm
      · simp [hk]
  · rw [if_neg hm]
    rw [alistLookup_append_single]
    cases h : alistLookup m k' with
    | some v' => simp [h]
    | none => simp [h]

theorem alistLookup_mem {κ α : Type} [DecidableEq κ]
    (m : List (κ × α)) (k : κ) (v : α) (h : alistLookup m k = some v) :
    (k, v) ∈ m := by
  induction m with
  | nil => simp [alistLookup] at h
  | cons kv t ih =>
    by_cases hk : k = kv.1
    · subst hk
      simp [alistLookup] at h
      subst h
      exact List.mem_cons_self _ _
    · simp [alistLookup, hk] at h
      exact List.mem_cons_of_mem _ (ih h)

/-! ## Time

`rpki::repository::x509::Time` is a chrono UTC timestamp compared
chronologically.  It is embedded as its calendar fields; `key` linearizes
them so that comparisons on in-range values coincide with chronological
order.  Wire encoding (GeneralizedTime) renders the same fields. -/

structure Time where
  year : Nat
  month : Nat
  day : Nat
  hour : Nat
  minute : Nat
  second : Nat
deriving DecidableEq, Repr

/-- Linearization of the calendar fields; on valid dates (`month ≤ 12`,
`day ≤ 31`, `hour ≤ 23`, `minute, second ≤ 59`) it orders exactly as
chronological time. -/
def Time.key (t : Time) : Nat :=
  ((((t.year * 13 + t.month) * 32 + t.day) * 24 + t.hour) * 60 + t.minute) * 60 + t.second

/-- Field ranges of a canonically encodable UTC time. -/
def Time.valid (t : Time) : Prop :=
  t.year < 10000 ∧ 1 ≤ t.month ∧ t.month ≤ 12 ∧ 1 ≤ t.day ∧ t.day ≤ 31 ∧
    t.hour ≤ 23 ∧ t.minute ≤ 59 ∧ t.second ≤ 59

instance (t : Time) : Decidable t.valid := by
  unfold Time.valid
  infer_instance

/-! ## ManifestRef and the manifest extraction -/

/-- ManifestRef as defined in `src/erik.rs` (section 3 of the draft).
URIs and key identifiers are byte lists; `manifest_number` models the
`Serial` (an unsigned 128-bit integer in the source). -/
structure ManifestRef where
  hash : List Nat
  size : Nat
  aki : List Nat
  manifest_number : Nat
  this_update : Time
  locations : List Nat
deriving DecidableEq, Repr

/-- The fields of a decoded CMS manifest that the repository reads.
`captured` is the DER the manifest re-encodes to (`Manifest::to_captured`).
Decoding itself is a library primitive and stays uninterpreted. -/
structure Manifest where
  captured : List Nat
  aki : Option (List Nat)
  manifest_number : Nat
  this_update : Time
  signed_object : Option (List Nat)
  is_stale : Bool
deriving DecidableEq, Repr

/-- The library primitives the embedding is parameterized by. -/
structure CryptoEnv where
  sha256 : List Nat → List Nat
  decodeManifest : List Nat → Option Manifest

/-- A current element in a repository (`RepoContentElement` in
`src/fetch/rrdp.rs`): publication URI and raw bytes. -/
structure RepoContentElement where
  uri : List Nat
  data : List Nat
deriving DecidableEq, Repr

/-- Byte string of the ASCII suffix `.mft`. -/
def mftSuffix : List Nat := [46, 109, 102, 116]

/-- Embeds `RepoContentElement::try_manifest_ref`: applies only to elements
whose publication URI ends in `.mft`; decodes the manifest, requires an AKI,
rejects stale manifests unless `accept_stale`, and builds the `ManifestRef`.
Note the source fills `locations` with the element's publication URI. -/
def RepoContentElement.try_manifest_ref (env : CryptoEnv) (rce : RepoContentElement)
    (accept_stale : Bool) : Option ManifestRef :=
  if mftSuffix.isSuffixOf rce.uri then
    match env.decodeManifest rce.data with
    | none => none
    | some mft =>
      match mft.aki with
      | none => none
      | some aki =>
        if accept_stale = false ∧ mft.is_stale then none
        else some {
          hash := env.sha256 rce.data
          size := rce.data.length
          aki := aki
          manifest_number := mft.manifest_number
          this_update := mft.this_update
          locations := rce.uri }
  else none

/-- Embeds `TryFrom<&Manifest> for ManifestRef` (`src/erik.rs`): here the
location is the EE certificate's id-ad-signedObject SIA URI, and hash and
size are over the manifest's re-encoded bytes. -/
def ManifestRef.tryFromManifest (env : CryptoEnv) (mft : Manifest) : Option ManifestRef :=
  match mft.signed_object with
  | none => none
  | some loc =>
    match mft.aki with
    | none => none
    | some aki =>
      some {
        hash := env.sha256 mft.captured
        size := mft.captured.length
        aki := aki
        manifest_number := mft.manifest_number
        this_update := mft.this_update
        locations := loc }

/-! ## Partitions -/

/-- ErikPartition (`src/erik.rs`): a partition time and a set of manifest
references.  The `HashSet` is embedded as a duplicate-free-by-insertion
list; `insertSet` is `HashSet::insert`. -/
structure ErikPartition where
  partition_time : Time
  manifest_refs : List ManifestRef
deriving DecidableEq, Repr

/-- Set insertion: a structurally equal member is not added again. -/
def insertSet (l : List ManifestRef) (r : ManifestRef) : List ManifestRef :=
  if r ∈ l then l else l ++ [r]

/-- Embeds `ErikPartition::create_from_manifest_ref`. -/
def ErikPartition.create_from_manifest_ref (m : ManifestRef) : ErikPartition :=
  { partition_time := m.this_update, manifest_refs := [m] }

/-- Embeds `ErikPartition::add_manifest_ref`: lowers `partition_time` when
the new reference is older, then inserts the reference. -/
def ErikPartition.add_manifest_ref (p : ErikPartition) (m : ManifestRef) : ErikPartition :=
  { partition_time :=
      if m.this_update.key < p.partition_time.key then m.this_update else p.partition_time
    manifest_refs := insertSet p.manifest_refs m }

/-- ResolvedErikIndex (`src/erik.rs` / `src/erik/state.rs`): partitions keyed
by the first byte of the AKI. -/
structure ResolvedErikIndex where
  index_scope : List Nat
  index_time : Time
  partitions : List (Nat × ErikPartition)
deriving DecidableEq, Repr

/-- Maximum over the iterated times, as `Iterator::max` (the later of two
equal maxima is kept). -/
def maxTime? (l : List Time) : Option Time :=
  l.foldl (fun acc t =>
    match acc with
    | none => some t
    | some a => some (if t.key < a.key then a else t)) none

/-- The partition-bucketing loop of `ResolvedErikIndex::from_content`:
each manifest reference goes to the bucket of its partition key `aki[0]`
(`ErikPartitionKey::from`; the `KeyIdentifier` is a fixed 20-byte value, so
`headD` never sees an empty list on source-reachable data). -/
def partitionsOf (manifests : List ManifestRef) : List (Nat × ErikPartition) :=
  manifests.foldl (fun acc r =>
    let key := r.aki.headD 0
    match alistLookup acc key with
    | some p => alistInsert acc key (p.add_manifest_ref r)
    | none => alistInsert acc key (ErikPartition.create_from_manifest_ref r)) []

/-- Embeds `ResolvedErikIndex::from_content` (identical in `src/erik.rs` and
`src/erik/state.rs`): bucket the manifest references of the content by
`aki[0]`, then return an index timed at the most recent partition time, or
nothing when there are no partitions.  The input list stands for
`content.manifests().values()` in iteration order. -/
def ResolvedErikIndex.from_content (index_scope : List Nat) (manifests : List ManifestRef) :
    Option ResolvedErikIndex :=
  let partitions := partitionsOf manifests
  match maxTime? (partitions.map (fun kv => kv.2.partition_time)) with
  | none => none
  | some t => some { index_scope := index_scope, index_time := t, partitions := partitions }

/-! ## The RRDP engine (`src/fetch/rrdp.rs`)

Transitions are embedded with their network inputs resolved up front: the
notification file carries the parsed snapshot and delta contents that
`get_snapshot_file` / `get_delta_file` would fetch.  Fetch and parse
failures abort without touching state in the source and are not modelled. -/

/-- One element of an RRDP delta (`rpki::rrdp::DeltaElement`).  In an
`update`, `hash` is the digest of the object being replaced, and `data` the
replacement bytes (RFC 8182). -/
inductive DeltaElement
  | publish (uri : List Nat) (data : List Nat)
  | update (uri : List Nat) (hash : List Nat) (data : List Nat)
  | withdraw (hash : List Nat)
deriving DecidableEq, Repr

/-- A parsed snapshot: session, serial and its publish elements. -/
structure Snapshot where
  session_id : Nat
  serial : Nat
  publishes : List (List Nat × List Nat)
deriving DecidableEq, Repr

/-- A parsed notification file together with the contents of the snapshot
and deltas it references (each delta paired with its serial). -/
structure NotificationFile where
  session_id : Nat
  serial : Nat
  snapshot : Snapshot
  deltas : List (Nat × List DeltaElement)
deriving DecidableEq, Repr

/-- Outcome of fetching the notification file with the stored etag. -/
inductive PollResult
  | unmodified
  | notification (etag : Option (List Nat)) (nf : NotificationFile)
deriving DecidableEq, Repr

/-- RrdpState (`src/fetch/rrdp.rs`): session, serial, last etag, the
content-addressed element store and the derived AKI map. -/
structure RrdpState where
  session_id : Nat
  serial : Nat
  etag : Option (List Nat)
  elements : List (List Nat × RepoContentElement)
  manifests : List (List Nat × ManifestRef)
deriving DecidableEq, Repr

/-- Embeds `RrdpState::elements_from_snapshot`: each publish element is
stored under the digest of its data (`collect` into a `HashMap`). -/
def elements_from_snapshot (env : CryptoEnv) (s : Snapshot) :
    List (List Nat × RepoContentElement) :=
  s.publishes.foldl (fun acc ud => alistInsert acc (env.sha256 ud.2) ⟨ud.1, ud.2⟩) []

/-- Embeds `RrdpState::manifests_from_elements`: try manifest extraction
(stale accepted) on every stored element and collect the results keyed by
AKI; on a shared AKI the element later in iteration order wins. -/
def manifests_from_elements (env : CryptoEnv)
    (elements : List (List Nat × RepoContentElement)) : List (List Nat × ManifestRef) :=
  elements.foldl (fun acc kv =>
    match kv.2.try_manifest_ref env true with
    | some r => alistInsert acc r.aki r
    | none => acc) []

/-- Embeds `RrdpState::add_new_elements`: insert each new element only when
its digest is absent. -/
def addNewElements (old new : List (List Nat × RepoContentElement)) :
    List (List Nat × RepoContentElement) :=
  new.foldl (fun acc kv => alistInsertIfAbsent acc kv.1 kv.2) old

/-- Embeds `RrdpState::add_new_manifests`: a new reference replaces an
existing one for the same AKI only when its manifest number is strictly
greater. -/
def addNewManifests (old new : List (List Nat × ManifestRef)) :
    List (List Nat × ManifestRef) :=
  new.foldl (fun acc kv =>
    match alistLookup acc kv.1 with
    | some existing =>
      if existing.manifest_number < kv.2.manifest_number then alistInsert acc kv.1 kv.2
      else acc
    | none => alistInsert acc kv.1 kv.2) old

/-- Serial contiguity of a sorted delta list: each serial is the successor
of the previous one. -/
def contiguousSerials : List (Nat × List DeltaElement) → Bool
  | [] => true
  | [_] => true
  | a :: b :: t => (b.1 == a.1 + 1) && contiguousSerials (b :: t)

/-- Embeds `NotificationFile::sort_and_verify_deltas(None)` from rpki-rs as
used here: sort the deltas by serial and require a contiguous chain whose
last serial is the notification serial. -/
def sortAndVerifyDeltas (serial : Nat) (deltas : List (Nat × List DeltaElement)) :
    Option (List (Nat × List DeltaElement)) :=
  let sorted := List.insertionSort (fun a b => a.1 ≤ b.1) deltas
  if contiguousSerials sorted then
    match sorted.getLast? with
    | none => some sorted
    | some last => if last.1 = serial then some sorted else none
  else none

/-- Embeds the per-element body of the delta loop in
`RrdpState::update_from_deltas`.  A publish stages the new object under the
digest of its data; an update stages the new data under the digest carried
by the element (the digest of the object it replaces); both update and
withdraw fail when that digest is known neither to the store nor to the
staging map. -/
def applyDeltaElements (env : CryptoEnv)
    (stElems : List (List Nat × RepoContentElement)) :
    List (List Nat × RepoContentElement) → List DeltaElement →
    Option (List (List Nat × RepoContentElement))
  | newElems, [] => some newElems
  | newElems, el :: rest =>
    match el with
    | .publish uri data =>
      applyDeltaElements env stElems (alistInsert newElems (env.sha256 data) ⟨uri, data⟩) rest
    | .update uri hash data =>
      if (alistLookup stElems hash).isNone ∧ (alistLookup newElems hash).isNone then none
      else applyDeltaElements env stElems (alistInsert newElems hash ⟨uri, data⟩) rest
    | .withdraw hash =>
      if (alistLookup stElems hash).isNone ∧ (alistLookup newElems hash).isNone then none
      else applyDeltaElements env stElems newElems rest

/-- Folds `applyDeltaElements` over the sorted deltas. -/
def applyDeltas (env : CryptoEnv) (stElems : List (List Nat × RepoContentElement)) :
    List (List Nat × RepoContentElement) → List (List DeltaElement) →
    Option (List (List Nat × RepoContentElement))
  | newElems, [] => some newElems
  | newElems, d :: ds =>
    match applyDeltaElements env stElems newElems d with
    | none => none
    | some ne => applyDeltas env stElems ne ds

/-- Embeds `RrdpState::update_from_deltas`: verify the delta chain, stage
the new elements, then merge elements and the derived manifests into state.
Session and serial are not modified on this path (as in the source). -/
def RrdpState.update_from_deltas (env : CryptoEnv) (st : RrdpState)
    (nf : NotificationFile) : Option RrdpState :=
  match sortAndVerifyDeltas nf.serial nf.deltas with
  | none => none
  | some sorted =>
    match applyDeltas env st.elements [] (sorted.map (fun d => d.2)) with
    | none => none
    | some newElems =>
      let newManifests := manifests_from_elements env newElems
      some { st with
        elements := addNewElements st.elements newElems
        manifests := addNewManifests st.manifests newManifests }

/-- Embeds `RrdpState::update_from_snapshot`: take session and serial from
the snapshot, then merge the snapshot's elements (insert-if-absent) and the
derived manifests (greater-manifest-number rule) into the existing state. -/
def RrdpState.update_from_snapshot (env : CryptoEnv) (st : RrdpState)
    (nf : NotificationFile) : RrdpState :=
  let snapshot := nf.snapshot
  let elements := elements_from_snapshot env snapshot
  let manifests := manifests_from_elements env elements
  { st with
    serial := snapshot.serial
    session_id := snapshot.session_id
    elements := addNewElements st.elements elements
    manifests := addNewManifests st.manifests manifests }

/-- Embeds `RrdpState::update`: store the new etag first; no-op when session
and serial both match; snapshot path on a session change; otherwise the
delta path with fall-back to the snapshot path. -/
def RrdpState.update (env : CryptoEnv) (st : RrdpState) (poll : PollResult) :
    RrdpState × Bool :=
  match poll with
  | .unmodified => (st, false)
  | .notification etag nf =>
    let st1 := { st with etag := etag }
    if st1.session_id = nf.session_id ∧ st1.serial = nf.serial then (st1, false)
    else if st1.session_id ≠ nf.session_id then (st1.update_from_snapshot env nf, true)
    else
      match st1.update_from_deltas env nf with
      | some st2 => (st2, true)
      | none => (st1.update_from_snapshot env nf, true)

/-- Embeds `RrdpState::create`: session and serial from the notification
file, elements from its snapshot, manifests derived from the elements. -/
def RrdpState.create (env : CryptoEnv) (etag : Option (List Nat))
    (nf : NotificationFile) : RrdpState :=
  let elements := elements_from_snapshot env nf.snapshot
  { session_id := nf.session_id
    serial := nf.serial
    etag := etag
    elements := elements
    manifests := manifests_from_elements env elements }

/-! ## Helper lemmas on association lists built by the engine -/

theorem alistLookup_eq_none_of_not_mem_keys {κ α : Type} [DecidableEq κ]
    (m : List (κ × α)) (k : κ) (h : k ∉ m.map Prod.fst) : alistLookup m k = none := by
  induction m with
  | nil => rfl
  | cons kv t ih =>
    simp only [List.map_cons, List.mem_cons] at h
    push_neg at h
    simp [alistLookup, h.1, ih h.2]

theorem alistInsert_keys_subset {κ α : Type} [DecidableEq κ]
    (m : List (κ × α)) (k : κ) (v : α) (x : κ)
    (hx : x ∈ (alistInsert m k v).map Prod.fst) : x = k ∨ x ∈ m.map Prod.fst := by
  induction m with
  | nil =>
    simp [alistInsert] at hx
    exact Or.inl hx
  | cons kv t ih =>
    simp only [alistInsert] at hx
    by_cases hk : k = kv.1
    · rw [if_pos hk] at hx
      simp only [List.map_cons, List.mem_cons] at hx
      rcases hx with rfl | hx
      · exact Or.inl rfl
      · exact Or.inr (by simp [hx])
    · rw [if_neg hk] at hx
      simp only [List.map_cons, List.mem_cons] at hx
      rcases hx with rfl | hx
      · exact Or.inr (by simp)
      · rcases ih hx with h1 | h1
        · exact Or.inl h1
        · exact Or.inr (by simp [h1])

theorem alistInsert_keys_nodup {κ α : Type} [DecidableEq κ]
    (m : List (κ × α)) (k : κ) (v : α) (h : (m.map Prod.fst).Nodup) :
    ((alistInsert m k v).map Prod.fst).Nodup := by
  induction m with
  | nil => simp [alistInsert]
  | cons kv t ih =>
    simp only [List.map_cons, List.nodup_cons] at h
    simp only [alistInsert]
    by_cases hk : k = kv.1
    · rw [if_pos hk]
      simp only [List.map_cons, List.nodup_cons]
      refine ⟨?_, h.2⟩
      rw [hk]
      exact h.1
    · rw [if_neg hk]
      simp only [List.map_cons, List.nodup_cons]
      refine ⟨?_, ih h.2⟩
      intro hc
      rcases alistInsert_keys_subset t k v kv.1 hc with h1 | h1
      · exact hk h1.symm
      · exact h.1 h1

theorem foldl_keys_nodup {κ α β : Type} [DecidableEq κ]
    (f : List (κ × α) → β → List (κ × α))
    (hf : ∀ acc b, f acc b = acc ∨ ∃ k v, f acc b = alistInsert acc k v)
    (l : List β) (acc : List (κ × α)) (hacc : (acc.map Prod.fst).Nodup) :
    ((l.foldl f acc).map Prod.fst).Nodup := by
  induction l generalizing acc with
  | nil => exact hacc
  | cons b t ih =>
    rw [List.foldl_cons]
    refine ih (f acc b) ?_
    rcases hf acc b with h | ⟨k, v, h⟩
    · rw [h]; exact hacc
    · rw [h]; exact alistInsert_keys_nodup acc k v hacc

theorem elements_from_snapshot_keys_nodup (env : CryptoEnv) (s : Snapshot) :
    ((elements_from_snapshot env s).map Prod.fst).Nodup := by
  refine foldl_keys_nodup _ ?_ s.publishes [] (by simp)
  intro acc b
  exact Or.inr ⟨env.sha256 b.2, ⟨b.1, b.2⟩, rfl⟩

theorem manifests_from_elements_keys_nodup (env : CryptoEnv)
    (elements : List (List Nat × RepoContentElement)) :
    ((manifests_from_elements env elements).map Prod.fst).Nodup := by
  refine foldl_keys_nodup _ ?_ elements [] (by simp)
  intro acc kv
  cases h : kv.2.try_manifest_ref env true with
  | none => exact Or.inl (by simp [h])
  | some r => exact Or.inr ⟨r.aki, r, by simp [h]⟩

/-- The pointwise semantics of `add_new_elements`: an existing binding wins,
a new binding fills a gap. -/
def mergedElementLookup (old new : List (List Nat × RepoContentElement))
    (h : List Nat) : Option RepoContentElement :=
  match alistLookup old h with
  | some v => some v
  | none => alistLookup new h

/-- The pointwise semantics of `add_new_manifests`: on a shared AKI the
reference with the strictly greater manifest number wins (ties keep the
existing one); otherwise whichever side has a binding provides it. -/
def mergedManifestLookup (old new : List (List Nat × ManifestRef))
    (a : List Nat) : Option ManifestRef :=
  match alistLookup old a, alistLookup new a with
  | some o, some n => some (if o.manifest_number < n.manifest_number then n else o)
  | some o, none => some o
  | none, n => n

theorem alistLookup_addNewElements (old new : List (List Nat × RepoContentElement))
    (hnew : (new.map Prod.fst).Nodup) (q : List Nat) :
    alistLookup (addNewElements old new) q = mergedElementLookup old new q := by
  induction new generalizing old with
  | nil =>
    unfold addNewElements mergedElementLookup
    simp only [List.foldl_nil, alistLookup]
    cases alistLookup old q <;> rfl
  | cons kv t ih =>
    simp only [List.map_cons, List.nodup_cons] at hnew
    unfold addNewElements at ih ⊢
    rw [List.foldl_cons, ih _ hnew.2]
    unfold mergedElementLookup
    rw [alistLookup_insertIfAbsent]
    by_cases hq : q = kv.1
    · subst hq
      have ht : alistLookup t kv.1 = none :=
        alistLookup_eq_none_of_not_mem_keys t kv.1 hnew.1
      have hc : alistLookup (kv :: t) kv.1 = some kv.2 := by
        simp [alistLookup]
      cases ho : alistLookup old kv.1 with
      | some v => simp [ho, ht, hc]
      | none => simp [ho, ht, hc]
    · have hc : alistLookup (kv :: t) q = alistLookup t q := by
        simp [alistLookup, hq]
      cases ho : alistLookup old q with
      | some v => simp [ho, hc, hq]
      | none => simp [ho, hc, hq]

theorem alistLookup_addNewManifests (old new : List (List Nat × ManifestRef))
    (hnew : (new.map Prod.fst).Nodup) (q : List Nat) :
    alistLookup (addNewManifests old new) q = mergedManifestLookup old new q := by
  induction new generalizing old with
  | nil =>
    unfold addNewManifests mergedManifestLookup
    simp only [List.foldl_nil, alistLookup]
    cases alistLookup old q <;> rfl
  | cons kv t ih =>
    simp only [List.map_cons, List.nodup_cons] at hnew
    unfold addNewManifests at ih ⊢
    rw [List.foldl_cons, ih _ hnew.2]
    unfold mergedManifestLookup
    by_cases hq : q = kv.1
    · subst hq
      have ht : alistLookup t kv.1 = none :=
        alistLookup_eq_none_of_not_mem_keys t kv.1 hnew.1
      have hc : alistLookup (kv :: t) kv.1 = some kv.2 := by
        simp [alistLookup]
      rw [ht, hc]
      cases ho : alistLookup old kv.1 with
      | some o =>
        by_cases hlt : o.manifest_number < kv.2.manifest_number
        · simp [ho, hlt, alistLookup_insert_self]
        · simp [ho, hlt]
      | none => simp [ho, alistLookup_insert_self]
    · have hc : alistLookup (kv :: t) q = alistLookup t q := by
        simp [alistLookup, hq]
      rw [hc]
      cases ho : alistLookup old kv.1 with
      | some o =>
        by_cases hlt : o.manifest_number < kv.2.manifest_number
        · simp [ho, hlt, alistLookup_insert_ne old kv.1 q kv.2 hq]
        · simp [ho, hlt]
      | none => simp [ho, alistLookup_insert_ne old kv.1 q kv.2 hq]

/-! ## Helper lemmas for partition and index timestamps -/

/-- Invariant of a partition: its time is attained by a member and bounds
every member from below. -/
def partitionTimeIsMin (p : ErikPartition) : Prop :=
  (∃ r ∈ p.manifest_refs, p.partition_time = r.this_update) ∧
    ∀ r ∈ p.manifest_refs, p.partition_time.key ≤ r.this_update.key

theorem create_partitionTimeIsMin (m : ManifestRef) :
    partitionTimeIsMin (ErikPartition.create_from_manifest_ref m) := by
  constructor
  · exact ⟨m, by simp [ErikPartition.create_from_manifest_ref], rfl⟩
  · intro r hr
    simp [ErikPartition.create_from_manifest_ref] at hr
    subst hr
    exact Nat.le_refl _

theorem add_partitionTimeIsMin (p : ErikPartition) (m : ManifestRef)
    (h : partitionTimeIsMin p) : partitionTimeIsMin (p.add_manifest_ref m) := by
  obtain ⟨⟨r0, hr0, hr0t⟩, hlb⟩ := h
  have hmem : ∀ r, r ∈ (p.add_manifest_ref m).manifest_refs ↔ r ∈ p.manifest_refs ∨ r = m := by
    intro r
    simp only [ErikPartition.add_manifest_ref, insertSet]
    by_cases hin : m ∈ p.manifest_refs
    · simp only [hin, if_true]
      constructor
      · exact fun h => Or.inl h
      · rintro (h | rfl)
        · exact h
        · exact hin
    · simp [hin]
  constructor
  · by_cases hlt : m.this_update.key < p.partition_time.key
    · refine ⟨m, ?_, ?_⟩
      · exact (hmem m).mpr (Or.inr rfl)
      · simp [ErikPartition.add_manifest_ref, hlt]
    · refine ⟨r0, (hmem r0).mpr (Or.inl hr0), ?_⟩
      have htime : (p.add_manifest_ref m).partition_time = p.partition_time := by
        simp [ErikPartition.add_manifest_ref, hlt]
      rw [htime]
      exact hr0t
  · intro r hr
    rcases (hmem r).mp hr with hro | rfl
    · by_cases hlt : m.this_update.key < p.partition_time.key
      · simp only [ErikPartition.add_manifest_ref, hlt, if_true]
        exact Nat.le_of_lt (Nat.lt_of_lt_of_le hlt (hlb r hro))
      · simp only [ErikPartition.add_manifest_ref, hlt, if_false]
        exact hlb r hro
    · by_cases hlt : r.this_update.key < p.partition_time.key
      · simp [ErikPartition.add_manifest_ref, hlt]
      · simp only [ErikPartition.add_manifest_ref, hlt, if_false]
        exact Nat.le_of_not_lt hlt

theorem foldl_add_partitionTimeIsMin (ms : List ManifestRef) (p : ErikPartition)
    (h : partitionTimeIsMin p) :
    partitionTimeIsMin (ms.foldl ErikPartition.add_manifest_ref p) := by
  induction ms generalizing p with
  | nil => exact h
  | cons m ms ih => exact ih _ (add_partitionTimeIsMin p m h)

theorem maxTime?_foldl_some (l : List Time) (a : Time) :
    ∃ b, l.foldl (fun acc t =>
        match acc with
        | none => some t
        | some x => some (if t.key < x.key then x else t)) (some a) = some b ∧
      (b = a ∨ b ∈ l) ∧ a.key ≤ b.key ∧ ∀ t ∈ l, t.key ≤ b.key := by
  induction l generalizing a with
  | nil =>
    refine ⟨a, rfl, ?_, Nat.le_refl _, ?_⟩
    · exact Or.inl rfl
    · intro t ht
      exact absurd ht (by simp)
  | cons t l ih =>
    obtain ⟨b, hb, hmem, hab, hub⟩ := ih (if t.key < a.key then a else t)
    refine ⟨b, hb, ?_, ?_, ?_⟩
    · rcases hmem with h | h
      · by_cases hlt : t.key < a.key
        · rw [if_pos hlt] at h
          exact Or.inl h
        · rw [if_neg hlt] at h
          exact Or.inr (h ▸ List.mem_cons_self _ _)
      · exact Or.inr (List.mem_cons_of_mem _ h)
    · refine Nat.le_trans ?_ hab
      by_cases hlt : t.key < a.key
      · rw [if_pos hlt]
      · rw [if_neg hlt]
        exact Nat.le_of_not_lt hlt
    · intro u hu
      rcases List.mem_cons.mp hu with rfl | hu
      · refine Nat.le_trans ?_ hab
        by_cases hlt : u.key < a.key
        · rw [if_pos hlt]
          exact Nat.le_of_lt hlt
        · rw [if_neg hlt]
      · exact hub u hu

theorem maxTime?_eq_none (l : List Time) : maxTime? l = none ↔ l = [] := by
  cases l with
  | nil => simp [maxTime?]
  | cons t l =>
    simp only [maxTime?, List.foldl_cons]
    obtain ⟨b, hb, _, _, _⟩ := maxTime?_foldl_some l t
    simp [hb]

theorem maxTime?_spec (l : List Time) (b : Time) (h : maxTime? l = some b) :
    b ∈ l ∧ ∀ t ∈ l, t.key ≤ b.key := by
  cases l with
  | nil => simp [maxTime?] at h
  | cons t l =>
    simp only [maxTime?, List.foldl_cons] at h
    obtain ⟨b', hb', hmem, hab, hub⟩ := maxTime?_foldl_some l t
    rw [hb'] at h
    cases h
    constructor
    · rcases hmem with rfl | h
      · exact List.mem_cons_self _ _
      · exact List.mem_cons_of_mem _ h
    · intro u hu
      rcases List.mem_cons.mp hu with rfl | hu
      · exact hab
      · exact hub u hu

theorem alistInsert_ne_nil {κ α : Type} [DecidableEq κ]
    (m : List (κ × α)) (k : κ) (v : α) : alistInsert m k v ≠ [] := by
  cases m with
  | nil => simp [alistInsert]
  | cons kv t =>
    by_cases h : k = kv.1 <;> simp [alistInsert, h]

theorem partitionsOf_ne_nil (manifests : List ManifestRef) (h : manifests ≠ []) :
    partitionsOf manifests ≠ [] := by
  cases manifests with
  | nil => exact absurd rfl h
  | cons m ms =>
    unfold partitionsOf
    rw [List.foldl_cons]
    have step_ne : ∀ (acc : List (Nat × ErikPartition)) (r : ManifestRef),
        (match alistLookup acc (r.aki.headD 0) with
          | some p => alistInsert acc (r.aki.headD 0) (p.add_manifest_ref r)
          | none => alistInsert acc (r.aki.headD 0)
              (ErikPartition.create_from_manifest_ref r)) ≠ [] := by
      intro acc r
      cases alistLookup acc (r.aki.headD 0) with
      | some p => exact alistInsert_ne_nil _ _ _
      | none => exact alistInsert_ne_nil _ _ _
    have main : ∀ (l : List ManifestRef) (acc : List (Nat × ErikPartition)), acc ≠ [] →
        l.foldl (fun acc r =>
          match alistLookup acc (r.aki.headD 0) with
          | some p => alistInsert acc (r.aki.headD 0) (p.add_manifest_ref r)
          | none => alistInsert acc (r.aki.headD 0)
              (ErikPartition.create_from_manifest_ref r)) acc ≠ [] := by
      intro l
      induction l with
      | nil => intro acc hacc; exact hacc
      | cons x xs ih => intro acc _; exact ih _ (step_ne acc x)
    exact main ms _ (step_ne [] m)

/-! ## Claim theorems: partition and index timestamps -/

/-- Claim C5: a partition created from one manifest reference and extended
by any sequence of `add_manifest_ref` calls has `partition_time` equal to
the minimum `this_update` over its manifest references (attained by a
member and a lower bound of all members). -/
theorem C5_partition_time_min (m0 : ManifestRef) (ms : List ManifestRef) :
    (∃ r ∈ (ms.foldl ErikPartition.add_manifest_ref
        (ErikPartition.create_from_manifest_ref m0)).manifest_refs,
      (ms.foldl ErikPartition.add_manifest_ref
        (ErikPartition.create_from_manifest_ref m0)).partition_time = r.this_update) ∧
    ∀ r ∈ (ms.foldl ErikPartition.add_manifest_ref
        (ErikPartition.create_from_manifest_ref m0)).manifest_refs,
      (ms.foldl ErikPartition.add_manifest_ref
        (ErikPartition.create_from_manifest_ref m0)).partition_time.key ≤ r.this_update.key :=
  foldl_add_partitionTimeIsMin ms _ (create_partitionTimeIsMin m0)

/-- Closed instance of C5 at a two-element partition. -/
theorem C5_partition_time_min_witness :
    (∃ r ∈ ([⟨[2], 2, [7], 2, ⟨2023, 12, 1, 0, 0, 0⟩, [2]⟩].foldl
        ErikPartition.add_manifest_ref
        (ErikPartition.create_from_manifest_ref
          ⟨[1], 1, [7], 1, ⟨2024, 1, 1, 0, 0, 0⟩, [1]⟩)).manifest_refs,
      ([⟨[2], 2, [7], 2, ⟨2023, 12, 1, 0, 0, 0⟩, [2]⟩].foldl
        ErikPartition.add_manifest_ref
        (ErikPartition.create_from_manifest_ref
          ⟨[1], 1, [7], 1, ⟨2024, 1, 1, 0, 0, 0⟩, [1]⟩)).partition_time = r.this_update) ∧
    ∀ r ∈ ([⟨[2], 2, [7], 2, ⟨2023, 12, 1, 0, 0, 0⟩, [2]⟩].foldl
        ErikPartition.add_manifest_ref
        (ErikPartition.create_from_manifest_ref
          ⟨[1], 1, [7], 1, ⟨2024, 1, 1, 0, 0, 0⟩, [1]⟩)).manifest_refs,
      ([⟨[2], 2, [7], 2, ⟨2023, 12, 1, 0, 0, 0⟩, [2]⟩].foldl
        ErikPartition.add_manifest_ref
        (ErikPartition.create_from_manifest_ref
          ⟨[1], 1, [7], 1, ⟨2024, 1, 1, 0, 0, 0⟩, [1]⟩)).partition_time.key ≤
        r.this_update.key :=
  C5_partition_time_min ⟨[1], 1, [7], 1, ⟨2024, 1, 1, 0, 0, 0⟩, [1]⟩
    [⟨[2], 2, [7], 2, ⟨2023, 12, 1, 0, 0, 0⟩, [2]⟩]

/-- Claim C6: `from_content` yields no index exactly on empty input, and
otherwise the index time is the maximum partition time over the
partitions (attained by one of them and an upper bound of all). -/
theorem C6_from_content_index_time (scope : List Nat) (manifests : List ManifestRef) :
    (ResolvedErikIndex.from_content scope manifests = none ↔ manifests = []) ∧
    ∀ idx, ResolvedErikIndex.from_content scope manifests = some idx →
      (∃ kv ∈ idx.partitions, idx.index_time = kv.2.partition_time) ∧
      ∀ kv ∈ idx.partitions, kv.2.partition_time.key ≤ idx.index_time.key := by
  have hmain : ResolvedErikIndex.from_content scope manifests =
      match maxTime? ((partitionsOf manifests).map (fun kv => kv.2.partition_time)) with
      | none => none
      | some t =>
        some { index_scope := scope, index_time := t, partitions := partitionsOf manifests } :=
    rfl
  constructor
  · rw [hmain]
    cases h : maxTime? ((partitionsOf manifests).map (fun kv => kv.2.partition_time)) with
    | none =>
      have hp : partitionsOf manifests = [] :=
        List.map_eq_nil_iff.mp ((maxTime?_eq_none _).mp h)
      have hm : manifests = [] := by
        by_contra hne
        exact partitionsOf_ne_nil manifests hne hp
      simp [hm]
    | some t =>
      constructor
      · intro hc
        exact absurd hc (by simp)
      · intro hm
        subst hm
        simp [partitionsOf, maxTime?] at h
  · intro idx hidx
    rw [hmain] at hidx
    cases h : maxTime? ((partitionsOf manifests).map (fun kv => kv.2.partition_time)) with
    | none =>
      rw [h] at hidx
      exact absurd hidx (by simp)
    | some t =>
      rw [h] at hidx
      cases hidx
      obtain ⟨hmem, hub⟩ := maxTime?_spec _ _ h
      constructor
      · obtain ⟨kv, hkv, hkvt⟩ := List.mem_map.mp hmem
        exact ⟨kv, hkv, hkvt.symm⟩
      · intro kv hkv
        exact hub _ (List.mem_map.mpr ⟨kv, hkv, rfl⟩)

/-- Closed instance of C6: the empty content yields no index, and a
singleton content yields an index timed at its only partition. -/
theorem C6_from_content_index_time_witness :
    (ResolvedErikIndex.from_content [97] [] = none ↔ ([] : List ManifestRef) = []) ∧
    ∀ idx, ResolvedErikIndex.from_content [97]
        [⟨[1], 1, [7], 1, ⟨2024, 1, 1, 0, 0, 0⟩, [1]⟩] = some idx →
      (∃ kv ∈ idx.partitions, idx.index_time = kv.2.partition_time) ∧
      ∀ kv ∈ idx.partitions, kv.2.partition_time.key ≤ idx.index_time.key :=
  ⟨(C6_from_content_index_time [97] []).1,
    (C6_from_content_index_time [97] [⟨[1], 1, [7], 1, ⟨2024, 1, 1, 0, 0, 0⟩, [1]⟩]).2⟩

/-! ## DER byte-level encoding (`src/erik.rs` via bcder, Mode::Der)

Bytes are `Nat`s; tags are the concrete tag octets (0x30 SEQUENCE, 0x04
OCTET STRING, 0x02 INTEGER, 0x18 GeneralizedTime, 0x06 OID, 0x16
IA5String, 0xA0 `[0]` constructed, 0x86 `[6]` primitive). -/

/-- Big-endian base-256 digits of `n` (empty for 0), with explicit fuel so
that the kernel can evaluate it; `natToBytesBE` supplies enough fuel. -/
def beDigitsAux : Nat → Nat → List Nat
  | _, 0 => []
  | 0, _ + 1 => []
  | fuel + 1, n + 1 => beDigitsAux fuel ((n + 1) / 256) ++ [(n + 1) % 256]

/-- Big-endian base-256 digits of `n`; `[]` for 0, no leading zero. -/
def natToBytesBE (n : Nat) : List Nat := beDigitsAux n n

/-- Big-endian byte-list value. -/
def bytesToNat (l : List Nat) : Nat := l.foldl (fun acc b => acc * 256 + b) 0

/-- DER definite length octets: short form below 128, else minimal long
form. -/
def derLen (n : Nat) : List Nat :=
  if n < 128 then [n]
  else
    let ds := natToBytesBE n
    (128 + ds.length) :: ds

/-- A DER TLV: tag octet, length octets, content octets. -/
def tlv (tag : Nat) (content : List Nat) : List Nat :=
  tag :: derLen content.length ++ content

/-- Minimal unsigned INTEGER content octets for a natural number (a leading
zero octet only when the top bit would read as a sign). -/
def intContent (n : Nat) : List Nat :=
  if n = 0 then [0]
  else
    let ds := natToBytesBE n
    if 128 ≤ ds.headD 0 then 0 :: ds else ds

/-- Two ASCII digits. -/
def dig2 (n : Nat) : List Nat := [48 + n / 10, 48 + n % 10]

/-- Four ASCII digits. -/
def dig4 (n : Nat) : List Nat := [48 + n / 1000, 48 + n / 100 % 10, 48 + n / 10 % 10, 48 + n % 10]

/-- Content of a canonical GeneralizedTime: `YYYYMMDDHHMMSSZ`. -/
def timeContent (t : Time) : List Nat :=
  dig4 t.year ++ dig2 t.month ++ dig2 t.day ++ dig2 t.hour ++ dig2 t.minute ++
    dig2 t.second ++ [90]

/-- GeneralizedTime TLV (tag 0x18). -/
def encGenTime (t : Time) : List Nat := tlv 24 (timeContent t)

/-- Content octets of the SHA-256 OID 2.16.840.1.101.3.4.2.1. -/
def sha256OidContent : List Nat := [96, 134, 72, 1, 101, 3, 4, 2, 1]

/-- Content octets of `ERIK_INDEX_OID` 1.3.6.1.4.1.41948.826, as in the
source constant. -/
def erikIndexOidContent : List Nat := [43, 6, 1, 4, 1, 130, 199, 92, 134, 58]

/-- Content octets of id-ad-signedObject 1.3.6.1.5.5.7.48.11. -/
def adSignedObjectOidContent : List Nat := [43, 6, 1, 5, 5, 7, 48, 11]

/-- Embeds `ManifestRef::encode`: SEQUENCE of hash OCTET STRING, size
INTEGER (emitted as u128), aki OCTET STRING, manifestNumber INTEGER,
thisUpdate GeneralizedTime, and the SIA SEQUENCE of the id-ad-signedObject
OID with the `[6]` IA5 rsync URI. -/
def ManifestRef.encodeBytes (r : ManifestRef) : List Nat :=
  tlv 48 (tlv 4 r.hash ++ tlv 2 (intContent r.size) ++ tlv 4 r.aki ++
    tlv 2 (intContent r.manifest_number) ++ encGenTime r.this_update ++
    tlv 48 (tlv 6 adSignedObjectOidContent ++ tlv 134 r.locations))

/-- The sort in `From<&ErikPartition> for ErikPartitionEncoder`:
`refs.sort()` under the source's `Ord`, which compares digests alone. -/
def sortManifestRefs (l : List ManifestRef) : List ManifestRef :=
  List.insertionSort (fun a b => a.hash ≤ b.hash) l

/-- Embeds `ErikPartitionEncoder::{from, encode, to_captured}`: SEQUENCE of
partitionTime, the SHA-256 AlgorithmIdentifier SEQUENCE, and the SEQUENCE
of the digest-sorted manifest refs. -/
def ErikPartition.encodeBytes (p : ErikPartition) : List Nat :=
  tlv 48 (encGenTime p.partition_time ++ tlv 48 (tlv 6 sha256OidContent) ++
    tlv 48 (((sortManifestRefs p.manifest_refs).map ManifestRef.encodeBytes).flatten))

/-- ErikPartitionRef (`src/erik.rs`): digest and size of an encoded
partition. -/
structure ErikPartitionRef where
  hash : List Nat
  size : Nat
deriving DecidableEq, Repr

/-- Embeds `ErikPartitionRef::new`: digest and length of the partition
bytes. -/
def ErikPartitionRef.fromBytes (sha : List Nat → List Nat)
    (partition_bytes : List Nat) : ErikPartitionRef :=
  { hash := sha partition_bytes, size := partition_bytes.length }

/-- Embeds `ErikPartitionRef::encode`: SEQUENCE of hash OCTET STRING and
size INTEGER — no identifier field is emitted. -/
def ErikPartitionRef.encodeBytes (r : ErikPartitionRef) : List Nat :=
  tlv 48 (tlv 4 r.hash ++ tlv 2 (intContent r.size))

/-- ErikIndex (`src/erik.rs`): the decoded on-wire form. -/
structure ErikIndex where
  index_scope : List Nat
  index_time : Time
  partitions : List ErikPartitionRef
deriving DecidableEq, Repr

/-- The sort in `From<&ResolvedErikIndex> for ErikIndex` (`Ord` on
`ErikPartitionRef` compares digests alone). -/
def sortPartitionRefs (l : List ErikPartitionRef) : List ErikPartitionRef :=
  List.insertionSort (fun a b => a.hash ≤ b.hash) l

/-- Embeds `From<&ResolvedErikIndex> for ErikIndex`: encode every
partition, take digest and size of each encoding, and sort by digest. -/
def erikIndexFromResolved (sha : List Nat → List Nat) (idx : ResolvedErikIndex) : ErikIndex :=
  { index_scope := idx.index_scope
    index_time := idx.index_time
    partitions := sortPartitionRefs
      (idx.partitions.map (fun kv => ErikPartitionRef.fromBytes sha kv.2.encodeBytes)) }

/-- Embeds `ErikIndex::encode`: SEQUENCE of the ERIK index OID and a `[0]`
EXPLICIT OCTET STRING wrapping the DER of the inner SEQUENCE (IA5 scope,
GeneralizedTime, bare SHA-256 OID, SEQUENCE of partition refs). -/
def ErikIndex.encodeBytes (idx : ErikIndex) : List Nat :=
  tlv 48 (tlv 6 erikIndexOidContent ++
    tlv 160 (tlv 4 (tlv 48 (tlv 22 idx.index_scope ++ encGenTime idx.index_time ++
      tlv 6 sha256OidContent ++
      tlv 48 ((idx.partitions.map ErikPartitionRef.encodeBytes).flatten)))))

/-! ## Claim theorems: the RRDP engine transitions (C1 - C4) -/

/-- Concrete environment: the hash is the identity on byte lists (a
collision-free stand-in for SHA-256) and exactly the byte string `[1]`
decodes as a manifest. -/
def envC1 : CryptoEnv :=
  { sha256 := fun l => l
    decodeManifest := fun d =>
      if d = [1] then
        some { captured := [1], aki := some [7], manifest_number := 1,
               this_update := ⟨2024, 1, 1, 0, 0, 0⟩,
               signed_object := some [97, 46, 109, 102, 116], is_stale := false }
      else none }

/-- Session 1, with one published manifest at URI `a.mft`. -/
def nfC1old : NotificationFile :=
  { session_id := 1, serial := 1
    snapshot := { session_id := 1, serial := 1
                  publishes := [([97, 46, 109, 102, 116], [1])] }
    deltas := [] }

/-- Session 2 (a session change) whose snapshot is empty. -/
def nfC1new : NotificationFile :=
  { session_id := 2, serial := 1
    snapshot := { session_id := 2, serial := 1, publishes := [] }
    deltas := [] }

/-- The state after the initial sync against session 1. -/
def stC1 : RrdpState := RrdpState.create envC1 none nfC1old

/-- Claim C1, refuted: after a poll with a changed session id, the map
derived from the new snapshot alone has no entry for AKI `[7]`, yet the
updated engine state still carries the old session's manifest reference
there (the snapshot path merges instead of discarding). -/
theorem C1_counterexample :
    alistLookup (manifests_from_elements envC1
      (elements_from_snapshot envC1 nfC1new.snapshot)) [7] = none ∧
    alistLookup ((RrdpState.update envC1 stC1
      (PollResult.notification none nfC1new)).1).manifests [7] =
      alistLookup stC1.manifests [7] ∧
    (alistLookup stC1.manifests [7]).isSome = true := by
  decide

/-- Claim C1 as amended: on a session change the engine takes the snapshot
path, which sets session and serial from the new snapshot and merges the
snapshot-derived elements (existing digests win) and manifests (an existing
AKI entry is replaced only by a strictly greater manifest number) into the
existing state; old-session entries can survive. -/
theorem C1_session_change_merges (env : CryptoEnv) (st : RrdpState)
    (etag : Option (List Nat)) (nf : NotificationFile)
    (hsess : st.session_id ≠ nf.session_id) :
    (RrdpState.update env st (PollResult.notification etag nf)).2 = true ∧
    (RrdpState.update env st (PollResult.notification etag nf)).1.session_id =
      nf.snapshot.session_id ∧
    (RrdpState.update env st (PollResult.notification etag nf)).1.serial =
      nf.snapshot.serial ∧
    (RrdpState.update env st (PollResult.notification etag nf)).1.etag = etag ∧
    (∀ q, alistLookup (RrdpState.update env st (PollResult.notification etag nf)).1.elements q =
      mergedElementLookup st.elements (elements_from_snapshot env nf.snapshot) q) ∧
    (∀ q, alistLookup (RrdpState.update env st (PollResult.notification etag nf)).1.manifests q =
      mergedManifestLookup st.manifests
        (manifests_from_elements env (elements_from_snapshot env nf.snapshot)) q) := by
  have hupd : RrdpState.update env st (PollResult.notification etag nf) =
      (RrdpState.update_from_snapshot env { st with etag := etag } nf, true) := by
    show (if st.session_id = nf.session_id ∧ st.serial = nf.serial
        then ({ st with etag := etag }, false)
        else if st.session_id ≠ nf.session_id
          then (RrdpState.update_from_snapshot env { st with etag := etag } nf, true)
          else
            match RrdpState.update_from_deltas env { st with etag := etag } nf with
            | some st2 => (st2, true)
            | none => (RrdpState.update_from_snapshot env { st with etag := etag } nf, true)) =
      (RrdpState.update_from_snapshot env { st with etag := etag } nf, true)
    rw [if_neg (fun hc => hsess hc.1), if_pos hsess]
  rw [hupd]
  refine ⟨rfl, rfl, rfl, rfl, ?_, ?_⟩
  · intro q
    exact alistLookup_addNewElements _ _ (elements_from_snapshot_keys_nodup env nf.snapshot) q
  · intro q
    exact alistLookup_addNewManifests _ _
      (manifests_from_elements_keys_nodup env (elements_from_snapshot env nf.snapshot)) q

/-- Closed instance of the amended C1 at the concrete session change. -/
theorem C1_session_change_merges_witness :
    (RrdpState.update envC1 stC1 (PollResult.notification none nfC1new)).2 = true ∧
    alistLookup (RrdpState.update envC1 stC1
      (PollResult.notification none nfC1new)).1.manifests [7] =
      mergedManifestLookup stC1.manifests
        (manifests_from_elements envC1 (elements_from_snapshot envC1 nfC1new.snapshot)) [7] :=
  ⟨(C1_session_change_merges envC1 stC1 none nfC1new (by decide)).1,
   (C1_session_change_merges envC1 stC1 none nfC1new (by decide)).2.2.2.2.2 [7]⟩

/-- Concrete environment for the delta scenario: identity hash, nothing
decodes as a manifest. -/
def envC2 : CryptoEnv := { sha256 := fun l => l, decodeManifest := fun _ => none }

/-- Session 1 serial 1, empty snapshot. -/
def nfC2a : NotificationFile :=
  { session_id := 1, serial := 1
    snapshot := { session_id := 1, serial := 1, publishes := [] }
    deltas := [] }

/-- Session 1 serial 2 with one delta: publish bytes `[1]`, then an update
element carrying the digest of `[1]` and replacement bytes `[2]`. -/
def nfC2b : NotificationFile :=
  { session_id := 1, serial := 2
    snapshot := { session_id := 1, serial := 2, publishes := [] }
    deltas := [(2, [DeltaElement.publish [100] [1], DeltaElement.update [101] [1] [2]])] }

/-- Claim C2, violated by the code: after the delta path, the store carries
the replacement bytes `[2]` under the digest of the replaced object `[1]`
(the `Update` arm of `update_from_deltas` keys the new data by the prior
object's hash), so `key = SHA-256(stored bytes)` fails on a reachable
state even for a collision-free hash. -/
theorem C2_store_digest_mismatch :
    alistLookup ((RrdpState.update envC2 (RrdpState.create envC2 none nfC2a)
      (PollResult.notification none nfC2b)).1).elements [1] =
      some { uri := [101], data := [2] } ∧
    envC2.sha256 [2] ≠ [1] := by
  decide

/-- Concrete environment with two decodable manifests sharing the AKI
`[7, 0]`: bytes `[1]` carry manifest number 10, bytes `[2]` number 3. -/
def envC3 : CryptoEnv :=
  { sha256 := fun l => l
    decodeManifest := fun d =>
      if d = [1] then
        some { captured := [1], aki := some [7, 0], manifest_number := 10,
               this_update := ⟨2024, 1, 1, 0, 0, 0⟩,
               signed_object := some [97, 46, 109, 102, 116], is_stale := false }
      else if d = [2] then
        some { captured := [2], aki := some [7, 0], manifest_number := 3,
               this_update := ⟨2024, 1, 2, 0, 0, 0⟩,
               signed_object := some [98, 46, 109, 102, 116], is_stale := false }
      else none }

/-- A snapshot publishing both manifests. -/
def nfC3 : NotificationFile :=
  { session_id := 1, serial := 1
    snapshot := { session_id := 1, serial := 1
                  publishes := [([97, 46, 109, 102, 116], [1]),
                                ([98, 46, 109, 102, 116], [2])] }
    deltas := [] }

/-- Claim C3, refuted: the stored elements yield two extractable manifests
for AKI `[7, 0]` with numbers 10 and 3, yet the rebuilt map holds the one
with number 3 (`manifests_from_elements` keeps the element later in
iteration order and never compares manifest numbers). -/
theorem C3_counterexample :
    ((RrdpState.create envC3 none nfC3).elements.filterMap
      (fun kv => kv.2.try_manifest_ref envC3 true)).map
        (fun r => (r.aki, r.manifest_number)) = [([7, 0], 10), ([7, 0], 3)] ∧
    (alistLookup (RrdpState.create envC3 none nfC3).manifests [7, 0]).map
      (fun r => r.manifest_number) = some 3 := by
  decide

/-- Claim C3 as amended: for each AKI, the map rebuilt from a set of
elements holds exactly the manifest reference extracted from the element
latest in iteration order, with no manifest-number comparison (the
greatest-number rule lives only in `add_new_manifests`, which merges a
rebuilt map into the pre-existing one). -/
theorem C3_last_extraction_wins (env : CryptoEnv)
    (elements : List (List Nat × RepoContentElement)) (a : List Nat) :
    alistLookup (manifests_from_elements env elements) a =
      ((elements.filterMap (fun kv => kv.2.try_manifest_ref env true)).filter
        (fun r => r.aki == a)).getLast? := by
  induction elements using List.reverseRecOn with
  | nil => rfl
  | append_singleton l e ih =>
    have hM : manifests_from_elements env (l ++ [e]) =
        (match e.2.try_manifest_ref env true with
          | some r => alistInsert (manifests_from_elements env l) r.aki r
          | none => manifests_from_elements env l) := by
      unfold manifests_from_elements
      rw [List.foldl_append, List.foldl_cons, List.foldl_nil]
    rw [hM, List.filterMap_append, List.filter_append]
    cases he : e.2.try_manifest_ref env true with
    | none =>
      simp only [he, List.filterMap_cons, List.filterMap_nil, List.filter_nil,
        List.append_nil]
      exact ih
    | some r =>
      simp only [he, List.filterMap_cons, List.filterMap_nil]
      by_cases ha : r.aki = a
      · have h1 : alistLookup (alistInsert (manifests_from_elements env l) r.aki r) a =
            some r := by
          rw [← ha]
          exact alistLookup_insert_self _ _ _
        rw [h1]
        have h2 : List.filter (fun x => x.aki == a) [r] = [r] := by
          simp [List.filter_cons, beq_iff_eq, ha]
        rw [h2, List.getLast?_concat]
      · have h1 : alistLookup (alistInsert (manifests_from_elements env l) r.aki r) a =
            alistLookup (manifests_from_elements env l) a :=
          alistLookup_insert_ne _ _ _ _ (fun hc => ha hc.symm)
        rw [h1]
        have h2 : List.filter (fun x => x.aki == a) [r] = [] := by
          simp [List.filter_cons, beq_iff_eq, ha]
        rw [h2, List.append_nil]
        exact ih

/-- Concrete manifest whose EE-certificate signed-object URI (`r.mft`)
differs from the publication URI of the element carrying it. -/
def mftC4 : Manifest :=
  { captured := [9], aki := some [7], manifest_number := 5,
    this_update := ⟨2024, 1, 1, 0, 0, 0⟩,
    signed_object := some [114, 46, 109, 102, 116], is_stale := false }

/-- Environment decoding exactly `[9]` to that manifest. -/
def envC4 : CryptoEnv :=
  { sha256 := fun l => l
    decodeManifest := fun d => if d = [9] then some mftC4 else none }

/-- An element published at `a.mft` whose bytes decode to `mftC4`. -/
def rceC4 : RepoContentElement := { uri := [97, 46, 109, 102, 116], data := [9] }

/-- Claim C4, violated by the code: `try_manifest_ref` fills `locations`
with the element's publication URI, not the EE certificate's
id-ad-signedObject URI (which `TryFrom<&Manifest>` does use); digest and
size are over the ingested bytes as claimed. -/
theorem C4_location_is_publication_uri :
    (rceC4.try_manifest_ref envC4 true).map (fun r => r.locations) = some rceC4.uri ∧
    mftC4.signed_object = some [114, 46, 109, 102, 116] ∧
    rceC4.uri ≠ [114, 46, 109, 102, 116] ∧
    (ManifestRef.tryFromManifest envC4 mftC4).map (fun r => r.locations) =
      some [114, 46, 109, 102, 116] ∧
    (rceC4.try_manifest_ref envC4 true).map (fun r => r.hash) =
      some (envC4.sha256 rceC4.data) ∧
    (rceC4.try_manifest_ref envC4 true).map (fun r => r.size) = some rceC4.data.length := by
  decide

/-! ## Claim theorems: encoder ordering (C7) -/

theorem insertionSort_key_sorted {α : Type} (key : α → List Nat) (l : List α) :
    List.Sorted (fun a b => key a ≤ key b)
      (List.insertionSort (fun a b => key a ≤ key b) l) := by
  haveI : IsTotal α (fun a b => key a ≤ key b) := ⟨fun a b => le_total (key a) (key b)⟩
  haveI : IsTrans α (fun a b => key a ≤ key b) := ⟨fun _ _ _ h1 h2 => le_trans h1 h2⟩
  exact List.sorted_insertionSort _ l

theorem sorted_nodup_chain {α : Type} (key : α → List Nat) (l : List α)
    (hs : List.Sorted (fun a b => key a ≤ key b) l) (hn : (l.map key).Nodup) :
    List.Chain' (fun a b => key a < key b) l := by
  have hne : List.Pairwise (fun a b => key a ≠ key b) l := List.pairwise_map.mp hn
  have hlt : List.Pairwise (fun a b => key a < key b) l := by
    have hand := List.Pairwise.and hs hne
    exact hand.imp (fun h => lt_of_le_of_ne h.1 h.2)
  exact hlt.chain'

theorem insertionSort_key_nodup {α : Type} (key : α → List Nat) (l : List α)
    (hn : (l.map key).Nodup) :
    ((List.insertionSort (fun a b => key a ≤ key b) l).map key).Nodup := by
  have hperm : List.Perm (List.insertionSort (fun a b => key a ≤ key b) l) l :=
    List.perm_insertionSort _ l
  exact ((hperm.map key).nodup_iff).mpr hn

/-- Claim C7: the manifest references inside an encoded partition and the
partition references inside an encoded index appear in strictly ascending
digest order, given the digests in play are pairwise distinct (the source
relies on digest uniqueness: its `Ord` instances compare digests alone). -/
theorem C7_encoded_ordering :
    (∀ p : ErikPartition, ((p.manifest_refs.map (fun r => r.hash)).Nodup) →
      List.Chain' (fun a b => a.hash < b.hash) (sortManifestRefs p.manifest_refs)) ∧
    (∀ (sha : List Nat → List Nat) (idx : ResolvedErikIndex),
      ((idx.partitions.map (fun kv => sha kv.2.encodeBytes)).Nodup) →
      List.Chain' (fun a b => a.hash < b.hash)
        (erikIndexFromResolved sha idx).partitions) := by
  constructor
  · intro p hn
    exact sorted_nodup_chain (fun r : ManifestRef => r.hash) _
      (insertionSort_key_sorted (fun r : ManifestRef => r.hash) p.manifest_refs)
      (insertionSort_key_nodup (fun r : ManifestRef => r.hash) p.manifest_refs hn)
  · intro sha idx hn
    have hn' : ((idx.partitions.map
        (fun kv => ErikPartitionRef.fromBytes sha kv.2.encodeBytes)).map
          (fun r : ErikPartitionRef => r.hash)).Nodup := by
      rw [List.map_map]
      exact hn
    exact sorted_nodup_chain (fun r : ErikPartitionRef => r.hash) _
      (insertionSort_key_sorted (fun r : ErikPartitionRef => r.hash) _)
      (insertionSort_key_nodup (fun r : ErikPartitionRef => r.hash) _ hn')

/-- Closed instance of C7 on a two-ref partition and a two-partition
resolved index. -/
theorem C7_encoded_ordering_witness :
    List.Chain' (fun a b => a.hash < b.hash)
      (sortManifestRefs [⟨[2], 1, [7], 1, ⟨2024, 1, 1, 0, 0, 0⟩, [1]⟩,
                         ⟨[1], 1, [7], 1, ⟨2024, 1, 1, 0, 0, 0⟩, [1]⟩]) ∧
    List.Chain' (fun a b => a.hash < b.hash)
      (erikIndexFromResolved (fun l => l)
        { index_scope := [97], index_time := ⟨2024, 1, 1, 0, 0, 0⟩
          partitions :=
            [(7, { partition_time := ⟨2024, 1, 1, 0, 0, 0⟩
                   manifest_refs := [⟨[1], 1, [7], 1, ⟨2024, 1, 1, 0, 0, 0⟩, [1]⟩] }),
             (8, { partition_time := ⟨2024, 1, 1, 0, 0, 0⟩
                   manifest_refs := [⟨[2], 1, [8], 1, ⟨2024, 1, 1, 0, 0, 0⟩, [1]⟩] })] }).partitions :=
  ⟨C7_encoded_ordering.1
      { partition_time := ⟨2024, 1, 1, 0, 0, 0⟩
        manifest_refs := [⟨[2], 1, [7], 1, ⟨2024, 1, 1, 0, 0, 0⟩, [1]⟩,
                          ⟨[1], 1, [7], 1, ⟨2024, 1, 1, 0, 0, 0⟩, [1]⟩] } (by decide),
   C7_encoded_ordering.2 (fun l => l)
      { index_scope := [97], index_time := ⟨2024, 1, 1, 0, 0, 0⟩
        partitions :=
          [(7, { partition_time := ⟨2024, 1, 1, 0, 0, 0⟩
                 manifest_refs := [⟨[1], 1, [7], 1, ⟨2024, 1, 1, 0, 0, 0⟩, [1]⟩] }),
           (8, { partition_time := ⟨2024, 1, 1, 0, 0, 0⟩
                 manifest_refs := [⟨[2], 1, [8], 1, ⟨2024, 1, 1, 0, 0, 0⟩, [1]⟩] })] }
      (by decide)⟩

/-! ## DER byte-level decoding (bcder `Mode::Der`, as driven by
`ErikPartition::take_from`, `ManifestRef::take_opt_from` and
`ErikIndex::take_from`)

The decoders are plain functions on byte lists that thread the unconsumed
remainder; the sequence combinators' exhaustion checks appear as explicit
emptiness tests. -/

/-- Splits one TLV with the given tag off the front: definite length,
short form below 128, otherwise minimal long form (no leading zero octet
and a value of at least 128). -/
def splitTLV (tag : Nat) (bs : List Nat) : Option (List Nat × List Nat) :=
  match bs with
  | t :: l :: rest2 =>
    if t = tag then
      if l < 128 then
        if l ≤ rest2.length then some (rest2.take l, rest2.drop l) else none
      else
        let k := l - 128
        if k = 0 then none
        else
          let ds := rest2.take k
          if ds.length = k then
            if ds.headD 0 ≠ 0 then
              let n := bytesToNat ds
              if 128 ≤ n then
                let body := rest2.drop k
                if n ≤ body.length then some (body.take n, body.drop n) else none
              else none
            else none
          else none
    else none
  | _ => none

/-- BER/DER validity of unsigned INTEGER content octets: non-empty,
no sign bit, and minimal (a zero first octet only before a high octet). -/
def minimalUnsigned : List Nat → Bool
  | [] => false
  | b :: t =>
    if 128 ≤ b then false
    else if b = 0 then
      match t with
      | [] => true
      | x :: _ => decide (128 ≤ x)
    else true

/-- Parses an unsigned INTEGER TLV (bcder's unsigned accessors reject
negative and non-minimal content). -/
def parseIntFrom (bs : List Nat) : Option (Nat × List Nat) := do
  let (c, rest) ← splitTLV 2 bs
  if minimalUnsigned c then some (bytesToNat c, rest) else none

/-- An ASCII decimal digit. -/
abbrev isDig (c : Nat) : Prop := 48 ≤ c ∧ c ≤ 57

/-- Parses a canonical GeneralizedTime TLV (`YYYYMMDDHHMMSSZ`), with the
field-range validation the x509 time decoding performs. -/
def parseTimeFrom (bs : List Nat) : Option (Time × List Nat) := do
  let (c, rest) ← splitTLV 24 bs
  match c with
  | [y1, y2, y3, y4, mo1, mo2, d1, d2, h1, h2, mi1, mi2, s1, s2, z] =>
    if z = 90 ∧ isDig y1 ∧ isDig y2 ∧ isDig y3 ∧ isDig y4 ∧ isDig mo1 ∧ isDig mo2 ∧
        isDig d1 ∧ isDig d2 ∧ isDig h1 ∧ isDig h2 ∧ isDig mi1 ∧ isDig mi2 ∧
        isDig s1 ∧ isDig s2 then
      let year := (y1 - 48) * 1000 + (y2 - 48) * 100 + (y3 - 48) * 10 + (y4 - 48)
      let month := (mo1 - 48) * 10 + (mo2 - 48)
      let day := (d1 - 48) * 10 + (d2 - 48)
      let hour := (h1 - 48) * 10 + (h2 - 48)
      let minute := (mi1 - 48) * 10 + (mi2 - 48)
      let second := (s1 - 48) * 10 + (s2 - 48)
      if 1 ≤ month ∧ month ≤ 12 ∧ 1 ≤ day ∧ day ≤ 31 ∧ hour ≤ 23 ∧
          minute ≤ 59 ∧ second ≤ 59 then
        some ({ year := year, month := month, day := day, hour := hour,
                minute := minute, second := second }, rest)
      else none
    else none
  | _ => none

/-- ASCII bytes of `rsync://`. -/
def rsyncScheme : List Nat := [114, 115, 121, 110, 99, 58, 47, 47]

/-- The URI checks of `Ia5String::from_content` plus
`uri::Rsync::from_bytes`: IA5 characters and the rsync scheme. -/
def isIa5Rsync (u : List Nat) : Bool :=
  u.all (fun b => decide (b < 128)) && rsyncScheme.isPrefixOf u

/-- Embeds `ManifestRef::take_locations`: the SIA SEQUENCE must hold the
id-ad-signedObject OID followed by a `[6]` IA5 rsync URI and nothing else. -/
def parseLocationsFrom (bs : List Nat) : Option (List Nat × List Nat) := do
  let (c, rest) ← splitTLV 48 bs
  let (oidc, c1) ← splitTLV 6 c
  if oidc = adSignedObjectOidContent then
    let (uric, c2) ← splitTLV 134 c1
    if c2 = [] then
      if isIa5Rsync uric then some (uric, rest) else none
    else none
  else none

/-- Embeds `ManifestRef::take_opt_from` (one manifest reference): 32-byte
hash OCTET STRING, u32 size, 20-byte key identifier, u128 serial,
GeneralizedTime, locations; the enclosing SEQUENCE must be exhausted. -/
def parseManifestRefFrom (bs : List Nat) : Option (ManifestRef × List Nat) := do
  let (c, rest) ← splitTLV 48 bs
  let (hashc, c1) ← splitTLV 4 c
  if hashc.length = 32 then
    let (size, c2) ← parseIntFrom c1
    if size < 2 ^ 32 then
      let (akic, c3) ← splitTLV 4 c2
      if akic.length = 20 then
        let (num, c4) ← parseIntFrom c3
        if num < 2 ^ 128 then
          let (t, c5) ← parseTimeFrom c4
          let (uri, c6) ← parseLocationsFrom c5
          if c6 = [] then
            some ({ hash := hashc, size := size, aki := akic, manifest_number := num,
                    this_update := t, locations := uri }, rest)
          else none
        else none
      else none
    else none
  else none

/-- The `while take_opt_sequence` loop over manifest references; the fuel
is the byte length of the content, enough because every reference consumes
at least one octet. -/
def parseManifestRefsFrom : Nat → List Nat → Option (List ManifestRef)
  | _, [] => some []
  | 0, _ :: _ => none
  | fuel + 1, bs => do
    let (r, rest) ← parseManifestRefFrom bs
    let rs ← parseManifestRefsFrom fuel rest
    some (r :: rs)

/-- Embeds `DigestAlgorithm::take_from` as used by
`ErikPartition::take_from`: an AlgorithmIdentifier SEQUENCE holding the
SHA-256 OID and an optional NULL parameter. -/
def parseAlgSeqFrom (bs : List Nat) : Option (List Nat) := do
  let (c, rest) ← splitTLV 48 bs
  let (oidc, c1) ← splitTLV 6 c
  if oidc = sha256OidContent then
    match c1 with
    | [] => some rest
    | [5, 0] => some rest
    | _ => none
  else none

/-- Embeds `ErikPartition::decode` (Mode::Der over `take_from`): outer
SEQUENCE of time, hash algorithm and the reference SEQUENCE, collecting
the references into the `HashSet`. -/
def decodeErikPartition (bs : List Nat) : Option ErikPartition := do
  let (c, rest) ← splitTLV 48 bs
  if rest = [] then
    let (t, c1) ← parseTimeFrom c
    let c2 ← parseAlgSeqFrom c1
    let (refsc, c3) ← splitTLV 48 c2
    if c3 = [] then
      let rs ← parseManifestRefsFrom refsc.length refsc
      some { partition_time := t, manifest_refs := rs.foldl insertSet [] }
    else none
  else none

/-- Embeds `take_opt_u8` at the head of a PartitionRef: when the next tag
is INTEGER, its value must fit in an unsigned byte and is discarded;
otherwise nothing is consumed. -/
def takeOptU8 (c : List Nat) : Option (List Nat) :=
  if c.headD 0 = 2 ∧ c ≠ [] then
    match parseIntFrom c with
    | none => none
    | some (v, rest) => if v < 256 then some rest else none
  else some c

/-- Embeds the PartitionRef parser inside `ErikIndex::take_from`: optional
legacy INTEGER identifier (ignored), 32-byte hash, u32 size. -/
def parsePartitionRefFrom (bs : List Nat) : Option (ErikPartitionRef × List Nat) := do
  let (c, rest) ← splitTLV 48 bs
  let c0 ← takeOptU8 c
  let (hashc, c1) ← splitTLV 4 c0
  if hashc.length = 32 then
    let (size, c2) ← parseIntFrom c1
    if size < 2 ^ 32 then
      if c2 = [] then some ({ hash := hashc, size := size }, rest) else none
    else none
  else none

/-- The `while take_opt_constructed_if` loop over partition references. -/
def parsePartitionRefsFrom : Nat → List Nat → Option (List ErikPartitionRef)
  | _, [] => some []
  | 0, _ :: _ => none
  | fuel + 1, bs => do
    let (r, rest) ← parsePartitionRefFrom bs
    let rs ← parsePartitionRefsFrom fuel rest
    some (r :: rs)

/-- Embeds `ErikIndex::take_from`: outer SEQUENCE of the ERIK OID and a
`[0]` wrapped OCTET STRING whose bytes are decoded (Mode::Der again) as
the inner SEQUENCE of IA5 scope, time, bare SHA-256 OID and the partition
reference SEQUENCE. -/
def decodeErikIndex (bs : List Nat) : Option ErikIndex := do
  let (c, rest) ← splitTLV 48 bs
  if rest = [] then
    let (oidc, c1) ← splitTLV 6 c
    if oidc = erikIndexOidContent then
      let (a0c, c2) ← splitTLV 160 c1
      if c2 = [] then
        let (inner, o2) ← splitTLV 4 a0c
        if o2 = [] then
          let (ic, irest) ← splitTLV 48 inner
          if irest = [] then
            let (scope, ic1) ← splitTLV 22 ic
            if scope.all (fun b => decide (b < 128)) then
              let (t, ic2) ← parseTimeFrom ic1
              let (oidc2, ic3) ← splitTLV 6 ic2
              if oidc2 = sha256OidContent then
                let (prc, ic4) ← splitTLV 48 ic3
                if ic4 = [] then
                  let prs ← parsePartitionRefsFrom prc.length prc
                  some { index_scope := scope, index_time := t, partitions := prs }
                else none
              else none
            else none
          else none
        else none
      else none
    else none
  else none

/-- Modelled from the spec: the earlier draft's on-wire PartitionRef with
an optional leading INTEGER `identifier` (`none` reproduces the encoder of
this source exactly). -/
def encPartitionRefLegacy (ri : ErikPartitionRef × Option Nat) : List Nat :=
  tlv 48 ((match ri.2 with | some i => tlv 2 (intContent i) | none => []) ++
    tlv 4 ri.1.hash ++ tlv 2 (intContent ri.1.size))

/-- Modelled from the spec: an ErikIndex whose PartitionRefs carry the
legacy optional identifiers; with all identifiers `none` this is exactly
`ErikIndex.encodeBytes`. -/
def encodeIndexLegacy (scope : List Nat) (t : Time)
    (prs : List (ErikPartitionRef × Option Nat)) : List Nat :=
  tlv 48 (tlv 6 erikIndexOidContent ++
    tlv 160 (tlv 4 (tlv 48 (tlv 22 scope ++ encGenTime t ++ tlv 6 sha256OidContent ++
      tlv 48 ((prs.map encPartitionRefLegacy).flatten)))))

/-! ## Round-trip lemmas for the DER layer -/

theorem beDigitsAux_zero (fuel : Nat) : beDigitsAux fuel 0 = [] := by
  cases fuel <;> rfl

theorem bytesToNat_append_single (l : List Nat) (b : Nat) :
    bytesToNat (l ++ [b]) = bytesToNat l * 256 + b := by
  simp [bytesToNat, List.foldl_append]

theorem beDigitsAux_spec (fuel : Nat) :
    ∀ n, n ≤ fuel → bytesToNat (beDigitsAux fuel n) = n := by
  induction fuel with
  | zero =>
    intro n h
    interval_cases n
    rfl
  | succ f ih =>
    intro n h
    cases n with
    | zero => rw [beDigitsAux_zero]; rfl
    | succ m =>
      show bytesToNat (beDigitsAux f ((m + 1) / 256) ++ [(m + 1) % 256]) = m + 1
      rw [bytesToNat_append_single]
      have hle : (m + 1) / 256 ≤ f := by
        have := Nat.div_lt_self (Nat.succ_pos m) (by norm_num : 1 < 256)
        omega
      rw [ih _ hle]
      omega

theorem bytesToNat_natToBytesBE (n : Nat) : bytesToNat (natToBytesBE n) = n :=
  beDigitsAux_spec n n (Nat.le_refl n)

theorem natToBytesBE_ne_nil (n : Nat) (hn : n ≠ 0) : natToBytesBE n ≠ [] := by
  unfold natToBytesBE
  cases n with
  | zero => exact absurd rfl hn
  | succ m =>
    show beDigitsAux m ((m + 1) / 256) ++ [(m + 1) % 256] ≠ []
    simp

theorem headD_append_left (l1 l2 : List Nat) (h : l1 ≠ []) :
    (l1 ++ l2).headD 0 = l1.headD 0 := by
  cases l1 with
  | nil => exact absurd rfl h
  | cons x t => rfl

theorem beDigitsAux_headD (fuel : Nat) :
    ∀ n, n ≤ fuel → n ≠ 0 → (beDigitsAux fuel n).headD 0 ≠ 0 := by
  induction fuel with
  | zero =>
    intro n h hn
    omega
  | succ f ih =>
    intro n h hn
    cases n with
    | zero => exact absurd rfl hn
    | succ m =>
      show ((beDigitsAux f ((m + 1) / 256) ++ [(m + 1) % 256]).headD 0) ≠ 0
      by_cases hq : (m + 1) / 256 = 0
      · rw [hq, beDigitsAux_zero, List.nil_append]
        show (m + 1) % 256 ≠ 0
        omega
      · have hle : (m + 1) / 256 ≤ f := by
          have := Nat.div_lt_self (Nat.succ_pos m) (by norm_num : 1 < 256)
          omega
        rw [headD_append_left _ _ ?hne]
        case hne =>
          have : bytesToNat (beDigitsAux f ((m + 1) / 256)) = (m + 1) / 256 :=
            beDigitsAux_spec f _ hle
          intro hc
          rw [hc] at this
          exact hq (by simpa [bytesToNat] using this.symm)
        exact ih _ hle hq

theorem natToBytesBE_headD (n : Nat) (hn : n ≠ 0) : (natToBytesBE n).headD 0 ≠ 0 :=
  beDigitsAux_headD n n (Nat.le_refl n) hn

theorem splitTLV_tlv (tag : Nat) (c rest : List Nat) :
    splitTLV tag (tlv tag c ++ rest) = some (c, rest) := by
  by_cases h : c.length < 128
  · have htlv : tlv tag c ++ rest = tag :: c.length :: (c ++ rest) := by
      unfold tlv derLen
      rw [if_pos h]
      simp
    rw [htlv]
    simp only [splitTLV]
    rw [if_pos trivial, if_pos h,
      if_pos (by rw [List.length_append]; omega : c.length ≤ (c ++ rest).length),
      List.take_left' rfl, List.drop_left' rfl]
  · have hne : c.length ≠ 0 := by omega
    have hds := natToBytesBE_ne_nil c.length hne
    have htlv : tlv tag c ++ rest =
        tag :: (128 + (natToBytesBE c.length).length) ::
          (natToBytesBE c.length ++ (c ++ rest)) := by
      unfold tlv derLen
      rw [if_neg h]
      simp
    rw [htlv]
    simp only [splitTLV]
    rw [if_pos trivial]
    rw [if_neg (by omega : ¬ 128 + (natToBytesBE c.length).length < 128)]
    have hk : 128 + (natToBytesBE c.length).length - 128 = (natToBytesBE c.length).length := by
      omega
    rw [hk]
    have hklen : (natToBytesBE c.length).length ≠ 0 := by
      intro hc
      exact hds (List.length_eq_zero.mp hc)
    rw [if_neg hklen]
    rw [List.take_left' rfl]
    rw [if_pos rfl]
    rw [if_pos (natToBytesBE_headD c.length hne)]
    rw [bytesToNat_natToBytesBE]
    rw [if_pos (by omega : 128 ≤ c.length)]
    rw [List.drop_left' rfl]
    rw [if_pos (by rw [List.length_append]; omega : c.length ≤ (c ++ rest).length)]
    rw [List.take_left' rfl, List.drop_left' rfl]

theorem bytesToNat_cons_zero (l : List Nat) : bytesToNat (0 :: l) = bytesToNat l := by
  simp [bytesToNat]

theorem intContent_minimal (n : Nat) : minimalUnsigned (intContent n) = true := by
  unfold intContent
  by_cases h0 : n = 0
  · rw [if_pos h0]
    rfl
  · rw [if_neg h0]
    obtain ⟨d, t, hdt⟩ := List.exists_cons_of_ne_nil (natToBytesBE_ne_nil n h0)
    have hd : d ≠ 0 := by
      have := natToBytesBE_headD n h0
      rw [hdt] at this
      exact this
    by_cases h128 : 128 ≤ (natToBytesBE n).headD 0
    · rw [if_pos h128, hdt]
      rw [hdt] at h128
      have h128' : 128 ≤ d := by simpa using h128
      show minimalUnsigned (0 :: d :: t) = true
      simp [minimalUnsigned, h128']
    · rw [if_neg h128, hdt]
      rw [hdt] at h128
      have h128' : ¬ 128 ≤ d := by simpa using h128
      show minimalUnsigned (d :: t) = true
      simp [minimalUnsigned, h128', hd]

theorem bytesToNat_intContent (n : Nat) : bytesToNat (intContent n) = n := by
  unfold intContent
  by_cases h0 : n = 0
  · rw [if_pos h0, h0]
    rfl
  · rw [if_neg h0]
    by_cases h128 : 128 ≤ (natToBytesBE n).headD 0
    · rw [if_pos h128, bytesToNat_cons_zero, bytesToNat_natToBytesBE]
    · rw [if_neg h128, bytesToNat_natToBytesBE]

theorem parseIntFrom_enc (n : Nat) (rest : List Nat) :
    parseIntFrom (tlv 2 (intContent n) ++ rest) = some (n, rest) := by
  unfold parseIntFrom
  rw [splitTLV_tlv]
  simp [intContent_minimal, bytesToNat_intContent]

theorem parseTimeFrom_enc (t : Time) (rest : List Nat) (ht : t.valid) :
    parseTimeFrom (encGenTime t ++ rest) = some (t, rest) := by
  obtain ⟨hy, hm1, hm2, hd1, hd2, hh, hmi, hs⟩ := ht
  have hcontent : timeContent t =
      [48 + t.year / 1000, 48 + t.year / 100 % 10, 48 + t.year / 10 % 10, 48 + t.year % 10,
       48 + t.month / 10, 48 + t.month % 10, 48 + t.day / 10, 48 + t.day % 10,
       48 + t.hour / 10, 48 + t.hour % 10, 48 + t.minute / 10, 48 + t.minute % 10,
       48 + t.second / 10, 48 + t.second % 10, 90] := by
    simp [timeContent, dig4, dig2]
  unfold parseTimeFrom encGenTime
  rw [splitTLV_tlv]
  simp only [Option.bind_eq_bind, Option.some_bind, hcontent]
  rw [if_pos (by
    refine ⟨by trivial, ?_, ?_, ?_, ?_, ?_, ?_, ?_, ?_, ?_, ?_, ?_, ?_, ?_, ?_⟩ <;>
      exact ⟨by omega, by omega⟩)]
  rw [if_pos (by refine ⟨?_, ?_, ?_, ?_, ?_, ?_, ?_⟩ <;> omega)]
  simp only [Option.some.injEq, Prod.mk.injEq]
  refine ⟨?_, by trivial⟩
  have hyear : (48 + t.year / 1000 - 48) * 1000 + (48 + t.year / 100 % 10 - 48) * 100 +
      (48 + t.year / 10 % 10 - 48) * 10 + (48 + t.year % 10 - 48) = t.year := by omega
  have hmonth : (48 + t.month / 10 - 48) * 10 + (48 + t.month % 10 - 48) = t.month := by omega
  have hday : (48 + t.day / 10 - 48) * 10 + (48 + t.day % 10 - 48) = t.day := by omega
  have hhour : (48 + t.hour / 10 - 48) * 10 + (48 + t.hour % 10 - 48) = t.hour := by omega
  have hminute : (48 + t.minute / 10 - 48) * 10 + (48 + t.minute % 10 - 48) = t.minute := by
    omega
  have hsecond : (48 + t.second / 10 - 48) * 10 + (48 + t.second % 10 - 48) = t.second := by
    omega
  cases t
  simp only [Time.mk.injEq]
  exact ⟨hyear, hmonth, hday, hhour, hminute, hsecond⟩

theorem parseLocationsFrom_enc (uri rest : List Nat) (hu : isIa5Rsync uri = true) :
    parseLocationsFrom (tlv 48 (tlv 6 adSignedObjectOidContent ++ tlv 134 uri) ++ rest) =
      some (uri, rest) := by
  unfold parseLocationsFrom
  rw [splitTLV_tlv]
  simp only [Option.bind_eq_bind, Option.some_bind]
  rw [splitTLV_tlv]
  simp only [Option.bind_eq_bind, Option.some_bind]
  rw [if_pos trivial]
  have h134 : tlv 134 uri = tlv 134 uri ++ [] := (List.append_nil _).symm
  rw [h134, splitTLV_tlv]
  simp [hu]

theorem parseManifestRefFrom_enc (r : ManifestRef) (rest : List Nat)
    (hh : r.hash.length = 32) (hsz : r.size < 2 ^ 32) (ha : r.aki.length = 20)
    (hn : r.manifest_number < 2 ^ 128) (htv : r.this_update.valid)
    (hu : isIa5Rsync r.locations = true) :
    parseManifestRefFrom (r.encodeBytes ++ rest) = some (r, rest) := by
  unfold parseManifestRefFrom ManifestRef.encodeBytes
  rw [splitTLV_tlv]
  simp only [Option.bind_eq_bind, Option.some_bind, List.append_assoc]
  rw [splitTLV_tlv]
  simp only [Option.bind_eq_bind, Option.some_bind]
  rw [if_pos hh]
  rw [parseIntFrom_enc]
  simp only [Option.bind_eq_bind, Option.some_bind]
  rw [if_pos hsz]
  rw [splitTLV_tlv]
  simp only [Option.bind_eq_bind, Option.some_bind]
  rw [if_pos ha]
  rw [parseIntFrom_enc]
  simp only [Option.bind_eq_bind, Option.some_bind]
  rw [if_pos hn]
  rw [show encGenTime r.this_update ++ tlv 48 (tlv 6 adSignedObjectOidContent ++
      tlv 134 r.locations) = encGenTime r.this_update ++ (tlv 48 (tlv 6 adSignedObjectOidContent ++
      tlv 134 r.locations) ++ []) from by rw [List.append_nil]]
  rw [parseTimeFrom_enc _ _ htv]
  simp only [Option.bind_eq_bind, Option.some_bind]
  rw [parseLocationsFrom_enc _ _ hu]
  simp only [Option.bind_eq_bind, Option.some_bind]
  rw [if_pos trivial]

/-- Field well-formedness of a manifest reference as enforced by the
decoder: 32-byte digest, u32 size, 20-byte AKI, u128 serial, valid time,
IA5 rsync URI. -/
def validRef (r : ManifestRef) : Prop :=
  r.hash.length = 32 ∧ r.size < 2 ^ 32 ∧ r.aki.length = 20 ∧
    r.manifest_number < 2 ^ 128 ∧ r.this_update.valid ∧ isIa5Rsync r.locations = true

instance (r : ManifestRef) : Decidable (validRef r) := by
  unfold validRef Time.valid
  infer_instance

/-- A canonical-form partition value: valid fields and references listed in
strictly ascending digest order (the form canonical DER mandates and the
encoder produces). -/
def canonicalPartition (p : ErikPartition) : Prop :=
  p.partition_time.valid ∧ (∀ r ∈ p.manifest_refs, validRef r) ∧
    List.Pairwise (fun a b : ManifestRef => a.hash < b.hash) p.manifest_refs

instance (p : ErikPartition) : Decidable (canonicalPartition p) := by
  unfold canonicalPartition Time.valid
  infer_instance

theorem encodeBytes_length_pos (r : ManifestRef) : 0 < r.encodeBytes.length := by
  unfold ManifestRef.encodeBytes tlv
  simp

theorem parseManifestRefsFrom_nil (fuel : Nat) : parseManifestRefsFrom fuel [] = some [] := by
  cases fuel <;> rfl

theorem parseManifestRefsFrom_enc (refs : List ManifestRef)
    (hv : ∀ r ∈ refs, validRef r) :
    ∀ fuel, (refs.map ManifestRef.encodeBytes).flatten.length ≤ fuel →
    parseManifestRefsFrom fuel ((refs.map ManifestRef.encodeBytes).flatten) = some refs := by
  induction refs with
  | nil =>
    intro fuel _
    exact parseManifestRefsFrom_nil fuel
  | cons r rs ih =>
    intro fuel hfuel
    rw [List.map_cons, List.flatten_cons] at hfuel ⊢
    have hpos : 0 < r.encodeBytes.length := encodeBytes_length_pos r
    cases fuel with
    | zero =>
      rw [List.length_append] at hfuel
      omega
    | succ f =>
      obtain ⟨b, bs, hb⟩ : ∃ b bs, r.encodeBytes ++ (rs.map ManifestRef.encodeBytes).flatten =
          b :: bs := by
        cases hc : r.encodeBytes ++ (rs.map ManifestRef.encodeBytes).flatten with
        | nil =>
          rw [List.append_eq_nil] at hc
          rw [hc.1] at hpos
          simp at hpos
        | cons b bs => exact ⟨b, bs, rfl⟩
      rw [hb]
      show (parseManifestRefFrom (b :: bs)).bind _ = _
      rw [← hb]
      obtain ⟨hh, hsz, ha, hn, htv, hu⟩ := hv r (List.mem_cons_self _ _)
      rw [parseManifestRefFrom_enc r _ hh hsz ha hn htv hu]
      have hrs : parseManifestRefsFrom f ((rs.map ManifestRef.encodeBytes).flatten) =
          some rs := by
        refine ih (fun x hx => hv x (List.mem_cons_of_mem _ hx)) f ?_
        rw [List.length_append] at hfuel
        omega
      simp [hrs]

theorem sortManifestRefs_eq_of_sorted (l : List ManifestRef)
    (h : List.Pairwise (fun a b : ManifestRef => a.hash < b.hash) l) :
    sortManifestRefs l = l := by
  unfold sortManifestRefs
  exact List.Sorted.insertionSort_eq (h.imp (fun hab => le_of_lt hab))

theorem foldl_insertSet_eq (l : List ManifestRef) (hl : l.Nodup) :
    l.foldl insertSet [] = l := by
  have main : ∀ (t acc : List ManifestRef), (∀ x ∈ t, x ∉ acc) → t.Nodup →
      t.foldl insertSet acc = acc ++ t := by
    intro t
    induction t with
    | nil => intro acc _ _; simp
    | cons x xs ih =>
      intro acc hdisj hnd
      rw [List.foldl_cons]
      have hx : insertSet acc x = acc ++ [x] := by
        unfold insertSet
        rw [if_neg (hdisj x (List.mem_cons_self _ _))]
      rw [hx]
      rw [ih (acc ++ [x]) ?_ (List.nodup_cons.mp hnd).2]
      · simp
      · intro y hy hmem
        rcases List.mem_append.mp hmem with h1 | h1
        · exact hdisj y (List.mem_cons_of_mem _ hy) h1
        · rcases List.mem_singleton.mp h1 with rfl
          exact (List.nodup_cons.mp hnd).1 hy
  simpa using main l [] (by simp) hl

theorem decodeErikPartition_encode (p : ErikPartition) (hp : canonicalPartition p) :
    decodeErikPartition p.encodeBytes = some p := by
  obtain ⟨htv, hrv, hsorted⟩ := hp
  have hsort : sortManifestRefs p.manifest_refs = p.manifest_refs :=
    sortManifestRefs_eq_of_sorted _ hsorted
  have hnodup : p.manifest_refs.Nodup := by
    refine List.Pairwise.imp ?_ hsorted
    intro a b hab
    intro hc
    rw [hc] at hab
    exact lt_irrefl _ hab
  unfold decodeErikPartition ErikPartition.encodeBytes
  rw [hsort]
  rw [show tlv 48 (encGenTime p.partition_time ++ tlv 48 (tlv 6 sha256OidContent) ++
      tlv 48 ((p.manifest_refs.map ManifestRef.encodeBytes).flatten)) =
    tlv 48 (encGenTime p.partition_time ++ tlv 48 (tlv 6 sha256OidContent) ++
      tlv 48 ((p.manifest_refs.map ManifestRef.encodeBytes).flatten)) ++ [] from
    (List.append_nil _).symm]
  rw [splitTLV_tlv]
  simp only [Option.bind_eq_bind, Option.some_bind, List.append_assoc]
  rw [if_pos trivial]
  rw [parseTimeFrom_enc _ _ htv]
  simp only [Option.bind_eq_bind, Option.some_bind]
  rw [show tlv 48 (tlv 6 sha256OidContent) ++
      tlv 48 ((p.manifest_refs.map ManifestRef.encodeBytes).flatten) =
      tlv 48 (tlv 6 sha256OidContent) ++
      (tlv 48 ((p.manifest_refs.map ManifestRef.encodeBytes).flatten) ++ []) from by
    rw [List.append_nil]]
  rw [show parseAlgSeqFrom (tlv 48 (tlv 6 sha256OidContent) ++
      (tlv 48 ((p.manifest_refs.map ManifestRef.encodeBytes).flatten) ++ [])) =
      some (tlv 48 ((p.manifest_refs.map ManifestRef.encodeBytes).flatten) ++ []) from by
    unfold parseAlgSeqFrom
    rw [splitTLV_tlv]
    simp only [Option.bind_eq_bind, Option.some_bind]
    rw [show tlv 6 sha256OidContent = tlv 6 sha256OidContent ++ [] from
      (List.append_nil _).symm]
    rw [splitTLV_tlv]
    simp]
  simp only [Option.bind_eq_bind, Option.some_bind]
  rw [splitTLV_tlv]
  simp only [Option.bind_eq_bind, Option.some_bind]
  rw [if_pos trivial]
  rw [parseManifestRefsFrom_enc p.manifest_refs hrv _ (Nat.le_refl _)]
  simp only [Option.bind_eq_bind, Option.some_bind]
  rw [foldl_insertSet_eq _ hnodup]

/-- Claim C8: a well-formed canonical DER encoding of an ErikPartition
(the encoder image of a canonical partition value) decodes successfully,
and re-encoding the decoded partition reproduces the input bytes exactly. -/
theorem C8_partition_der_roundtrip (bs : List Nat)
    (hwf : ∃ p : ErikPartition, canonicalPartition p ∧ bs = p.encodeBytes) :
    (decodeErikPartition bs).map ErikPartition.encodeBytes = some bs := by
  obtain ⟨p, hc, rfl⟩ := hwf
  rw [decodeErikPartition_encode p hc]
  rfl

/-- A concrete canonical partition with two references. -/
def pC8 : ErikPartition :=
  { partition_time := ⟨2024, 1, 1, 0, 0, 0⟩
    manifest_refs :=
      [{ hash := List.replicate 32 1, size := 1000, aki := List.replicate 20 7,
         manifest_number := 300, this_update := ⟨2023, 12, 31, 23, 59, 59⟩,
         locations := rsyncScheme ++ [97, 47, 98, 46, 109, 102, 116] },
       { hash := List.replicate 32 2, size := 5, aki := List.replicate 20 9,
         manifest_number := 0, this_update := ⟨2024, 2, 29, 0, 0, 0⟩,
         locations := rsyncScheme ++ [99, 46, 109, 102, 116] }] }

/-- Closed instance of C8 at `pC8` (a 256-byte encoding exercising the
long length form). -/
theorem C8_partition_der_roundtrip_witness :
    (decodeErikPartition pC8.encodeBytes).map ErikPartition.encodeBytes =
      some pC8.encodeBytes :=
  C8_partition_der_roundtrip pC8.encodeBytes ⟨pC8, by decide, rfl⟩

theorem takeOptU8_no_id (c : List Nat) (rest : List Nat) :
    takeOptU8 (tlv 4 c ++ rest) = some (tlv 4 c ++ rest) := by
  unfold takeOptU8
  rw [if_neg ?hc]
  case hc =>
    intro hcond
    have : (tlv 4 c ++ rest).headD 0 = 4 := by
      simp [tlv]
    rw [this] at hcond
    omega

theorem takeOptU8_id (i : Nat) (rest : List Nat) (hi : i < 256) :
    takeOptU8 (tlv 2 (intContent i) ++ rest) = some rest := by
  unfold takeOptU8
  rw [if_pos ?hc]
  case hc =>
    constructor
    · simp [tlv]
    · simp [tlv]
  rw [parseIntFrom_enc]
  simp [hi]

theorem parsePartitionRefFrom_legacy (r : ErikPartitionRef) (id? : Option Nat)
    (rest : List Nat) (hh : r.hash.length = 32) (hs : r.size < 2 ^ 32)
    (hid : ∀ i, id? = some i → i < 256) :
    parsePartitionRefFrom (encPartitionRefLegacy (r, id?) ++ rest) = some (r, rest) := by
  unfold parsePartitionRefFrom encPartitionRefLegacy
  rw [splitTLV_tlv]
  simp only [Option.bind_eq_bind, Option.some_bind, List.append_assoc]
  have hrest : takeOptU8 ((match (r, id?).2 with
      | some i => tlv 2 (intContent i)
      | none => []) ++ (tlv 4 r.hash ++ tlv 2 (intContent r.size))) =
      some (tlv 4 r.hash ++ tlv 2 (intContent r.size)) := by
    cases id? with
    | none =>
      show takeOptU8 ([] ++ (tlv 4 r.hash ++ tlv 2 (intContent r.size))) = _
      rw [List.nil_append]
      exact takeOptU8_no_id _ _
    | some i =>
      show takeOptU8 (tlv 2 (intContent i) ++ (tlv 4 r.hash ++ tlv 2 (intContent r.size))) = _
      exact takeOptU8_id i _ (hid i rfl)
  rw [hrest]
  simp only [Option.bind_eq_bind, Option.some_bind]
  rw [splitTLV_tlv]
  simp only [Option.bind_eq_bind, Option.some_bind]
  rw [if_pos hh]
  rw [show tlv 2 (intContent r.size) = tlv 2 (intContent r.size) ++ [] from
    (List.append_nil _).symm]
  rw [parseIntFrom_enc]
  simp only [Option.bind_eq_bind, Option.some_bind]
  rw [if_pos hs]
  rw [if_pos trivial]

theorem encPartitionRefLegacy_length_pos (ri : ErikPartitionRef × Option Nat) :
    0 < (encPartitionRefLegacy ri).length := by
  unfold encPartitionRefLegacy tlv
  simp

theorem parsePartitionRefsFrom_nil (fuel : Nat) : parsePartitionRefsFrom fuel [] = some [] := by
  cases fuel <;> rfl

theorem parsePartitionRefsFrom_legacy (prs : List (ErikPartitionRef × Option Nat))
    (hv : ∀ ri ∈ prs, ri.1.hash.length = 32 ∧ ri.1.size < 2 ^ 32 ∧
      ∀ i, ri.2 = some i → i < 256) :
    ∀ fuel, (prs.map encPartitionRefLegacy).flatten.length ≤ fuel →
    parsePartitionRefsFrom fuel ((prs.map encPartitionRefLegacy).flatten) =
      some (prs.map Prod.fst) := by
  induction prs with
  | nil =>
    intro fuel _
    exact parsePartitionRefsFrom_nil fuel
  | cons ri rs ih =>
    intro fuel hfuel
    rw [List.map_cons, List.flatten_cons] at hfuel ⊢
    have hpos : 0 < (encPartitionRefLegacy ri).length := encPartitionRefLegacy_length_pos ri
    cases fuel with
    | zero =>
      rw [List.length_append] at hfuel
      omega
    | succ f =>
      obtain ⟨b, bs, hb⟩ : ∃ b bs, encPartitionRefLegacy ri ++
          (rs.map encPartitionRefLegacy).flatten = b :: bs := by
        cases hc : encPartitionRefLegacy ri ++ (rs.map encPartitionRefLegacy).flatten with
        | nil =>
          rw [List.append_eq_nil] at hc
          rw [hc.1] at hpos
          simp at hpos
        | cons b bs => exact ⟨b, bs, rfl⟩
      rw [hb]
      show (parsePartitionRefFrom (b :: bs)).bind _ = _
      rw [← hb]
      obtain ⟨hh, hs, hid⟩ := hv ri (List.mem_cons_self _ _)
      have hri : encPartitionRefLegacy ri = encPartitionRefLegacy (ri.1, ri.2) := rfl
      rw [hri, parsePartitionRefFrom_legacy ri.1 ri.2 _ hh hs hid]
      have hrs : parsePartitionRefsFrom f ((rs.map encPartitionRefLegacy).flatten) =
          some (rs.map Prod.fst) := by
        refine ih (fun x hx => hv x (List.mem_cons_of_mem _ hx)) f ?_
        rw [List.length_append] at hfuel
        omega
      simp [hrs]

theorem decodeErikIndex_legacy (scope : List Nat) (t : Time)
    (prs : List (ErikPartitionRef × Option Nat))
    (hscope : scope.all (fun b => decide (b < 128)) = true) (ht : t.valid)
    (hv : ∀ ri ∈ prs, ri.1.hash.length = 32 ∧ ri.1.size < 2 ^ 32 ∧
      ∀ i, ri.2 = some i → i < 256) :
    decodeErikIndex (encodeIndexLegacy scope t prs) =
      some { index_scope := scope, index_time := t, partitions := prs.map Prod.fst } := by
  unfold decodeErikIndex encodeIndexLegacy
  rw [show tlv 48 (tlv 6 erikIndexOidContent ++
      tlv 160 (tlv 4 (tlv 48 (tlv 22 scope ++ encGenTime t ++ tlv 6 sha256OidContent ++
        tlv 48 ((prs.map encPartitionRefLegacy).flatten))))) =
    tlv 48 (tlv 6 erikIndexOidContent ++
      tlv 160 (tlv 4 (tlv 48 (tlv 22 scope ++ encGenTime t ++ tlv 6 sha256OidContent ++
        tlv 48 ((prs.map encPartitionRefLegacy).flatten))))) ++ [] from
    (List.append_nil _).symm]
  rw [splitTLV_tlv]
  simp only [Option.bind_eq_bind, Option.some_bind, List.append_assoc]
  rw [if_pos trivial]
  rw [splitTLV_tlv]
  simp only [Option.bind_eq_bind, Option.some_bind]
  rw [if_pos trivial]
  rw [show tlv 160 (tlv 4 (tlv 48 (tlv 22 scope ++ (encGenTime t ++ (tlv 6 sha256OidContent ++
      tlv 48 ((prs.map encPartitionRefLegacy).flatten)))))) =
    tlv 160 (tlv 4 (tlv 48 (tlv 22 scope ++ (encGenTime t ++ (tlv 6 sha256OidContent ++
      tlv 48 ((prs.map encPartitionRefLegacy).flatten)))))) ++ [] from
    (List.append_nil _).symm]
  rw [splitTLV_tlv]
  simp only [Option.bind_eq_bind, Option.some_bind]
  rw [if_pos trivial]
  rw [show tlv 4 (tlv 48 (tlv 22 scope ++ (encGenTime t ++ (tlv 6 sha256OidContent ++
      tlv 48 ((prs.map encPartitionRefLegacy).flatten))))) =
    tlv 4 (tlv 48 (tlv 22 scope ++ (encGenTime t ++ (tlv 6 sha256OidContent ++
      tlv 48 ((prs.map encPartitionRefLegacy).flatten))))) ++ [] from
    (List.append_nil _).symm]
  rw [splitTLV_tlv]
  simp only [Option.bind_eq_bind, Option.some_bind]
  rw [if_pos trivial]
  rw [show tlv 48 (tlv 22 scope ++ (encGenTime t ++ (tlv 6 sha256OidContent ++
      tlv 48 ((prs.map encPartitionRefLegacy).flatten)))) =
    tlv 48 (tlv 22 scope ++ (encGenTime t ++ (tlv 6 sha256OidContent ++
      tlv 48 ((prs.map encPartitionRefLegacy).flatten)))) ++ [] from
    (List.append_nil _).symm]
  rw [splitTLV_tlv]
  simp only [Option.bind_eq_bind, Option.some_bind]
  rw [if_pos trivial]
  rw [splitTLV_tlv]
  simp only [Option.bind_eq_bind, Option.some_bind]
  rw [if_pos hscope]
  rw [parseTimeFrom_enc _ _ ht]
  simp only [Option.bind_eq_bind, Option.some_bind]
  rw [splitTLV_tlv]
  simp only [Option.bind_eq_bind, Option.some_bind]
  rw [if_pos trivial]
  rw [show tlv 48 ((prs.map encPartitionRefLegacy).flatten) =
    tlv 48 ((prs.map encPartitionRefLegacy).flatten) ++ [] from (List.append_nil _).symm]
  rw [splitTLV_tlv]
  simp only [Option.bind_eq_bind, Option.some_bind]
  rw [if_pos trivial]
  rw [parsePartitionRefsFrom_legacy prs hv _ (Nat.le_refl _)]
  simp

/-- Claim C9 as amended: an index whose PartitionRefs each carry a legacy
INTEGER identifier decodes successfully with the identifiers ignored —
provided every identifier fits in an unsigned byte (take_opt_u8 rejects
wider INTEGERs) — and the re-encoding of the decoded index is the
identifier-free encoding. -/
theorem C9_legacy_identifier (scope : List Nat) (t : Time)
    (prs : List (ErikPartitionRef × Option Nat))
    (hscope : scope.all (fun b => decide (b < 128)) = true) (ht : t.valid)
    (hv : ∀ ri ∈ prs, ri.1.hash.length = 32 ∧ ri.1.size < 2 ^ 32 ∧
      ∀ i, ri.2 = some i → i < 256) :
    decodeErikIndex (encodeIndexLegacy scope t prs) =
      some { index_scope := scope, index_time := t, partitions := prs.map Prod.fst } ∧
    ErikIndex.encodeBytes ⟨scope, t, prs.map Prod.fst⟩ =
      encodeIndexLegacy scope t ((prs.map Prod.fst).map (fun r => (r, none))) := by
  refine ⟨decodeErikIndex_legacy scope t prs hscope ht hv, ?_⟩
  have hmaps : List.map encPartitionRefLegacy
      (List.map (fun r => (r, (none : Option Nat))) (List.map Prod.fst prs)) =
      List.map ErikPartitionRef.encodeBytes (List.map Prod.fst prs) := by
    clear hv hscope ht
    induction prs with
    | nil => rfl
    | cons x xs ih =>
      simp only [List.map_cons]
      rw [ih]
      rfl
  unfold ErikIndex.encodeBytes encodeIndexLegacy
  dsimp only
  rw [hmaps]

/-- Closed instance of the amended C9 with one identifier present. -/
theorem C9_legacy_identifier_witness :
    decodeErikIndex (encodeIndexLegacy [97] ⟨2024, 1, 1, 0, 0, 0⟩
      [({ hash := List.replicate 32 3, size := 200 }, some 5)]) =
      some { index_scope := [97], index_time := ⟨2024, 1, 1, 0, 0, 0⟩,
             partitions := [{ hash := List.replicate 32 3, size := 200 }] } ∧
    ErikIndex.encodeBytes ⟨[97], ⟨2024, 1, 1, 0, 0, 0⟩, [⟨List.replicate 32 3, 200⟩]⟩ =
      encodeIndexLegacy [97] ⟨2024, 1, 1, 0, 0, 0⟩
        [({ hash := List.replicate 32 3, size := 200 }, none)] :=
  C9_legacy_identifier [97] ⟨2024, 1, 1, 0, 0, 0⟩
    [({ hash := List.replicate 32 3, size := 200 }, some 5)]
    (by decide) (by decide) (by decide)

/-- Claim C9 as stated, refuted: an identifier INTEGER of value 256 (two
content octets) makes decoding fail — `take_opt_u8` only ignores
identifiers that fit in one unsigned byte, not any INTEGER value. -/
theorem C9_counterexample :
    decodeErikIndex (encodeIndexLegacy [97] ⟨2024, 1, 1, 0, 0, 0⟩
      [({ hash := List.replicate 32 0, size := 0 }, some 256)]) = none := by
  decide

/-! ## The HTTP named-information route (`src/main.rs`) -/

/-- Value of one character of the URL-safe base64 alphabet (bytes as ASCII
codes); everything else, including the pad character, is rejected. -/
def b64Val (c : Nat) : Option Nat :=
  if 65 ≤ c ∧ c ≤ 90 then some (c - 65)
  else if 97 ≤ c ∧ c ≤ 122 then some (c - 97 + 26)
  else if 48 ≤ c ∧ c ≤ 57 then some (c - 48 + 52)
  else if c = 45 then some 62
  else if c = 95 then some 63
  else none

/-- Unpadded URL-safe base64 decoding as configured by
`base64::engine::general_purpose::URL_SAFE_NO_PAD`: strict alphabet, no
padding accepted, a trailing chunk of one character and non-zero trailing
bits are rejected. -/
def b64Decode : List Nat → Option (List Nat)
  | [] => some []
  | [_] => none
  | [c1, c2] => do
    let v1 ← b64Val c1
    let v2 ← b64Val c2
    if v2 % 16 = 0 then some [v1 * 4 + v2 / 16] else none
  | [c1, c2, c3] => do
    let v1 ← b64Val c1
    let v2 ← b64Val c2
    let v3 ← b64Val c3
    if v3 % 4 = 0 then some [v1 * 4 + v2 / 16, v2 % 16 * 16 + v3 / 4] else none
  | c1 :: c2 :: c3 :: c4 :: rest => do
    let v1 ← b64Val c1
    let v2 ← b64Val c2
    let v3 ← b64Val c3
    let v4 ← b64Val c4
    let tail ← b64Decode rest
    some ([v1 * 4 + v2 / 16, v2 % 16 * 16 + v3 / 4, v3 % 4 * 64 + v4] ++ tail)

/-- ASCII bytes of the string `sha-256`. -/
def sha256Label : List Nat := [115, 104, 97, 45, 50, 53, 54]

/-- An HTTP response: status code and, for the success path, the served
bytes (the error branches of the route return short human strings that the
claims do not constrain). -/
structure NiResponse where
  status : Nat
  body : Option (List Nat)
deriving DecidableEq, Repr

/-- Embeds the `named_information` handler in `src/main.rs`: reject a
non-`sha-256` algorithm with 400, reject a value that does not decode to
exactly 32 bytes with 400, look the digest up in the element store and
answer 404 or 200 with the stored bytes.  (`Hash::try_from` on a 32-byte
slice cannot fail, so that dead branch collapses into the lookup.) -/
def named_information (elements : List (List Nat × RepoContentElement))
    (alg val : List Nat) : NiResponse :=
  if alg ≠ sha256Label then { status := 400, body := none }
  else
    match b64Decode val with
    | some h =>
      if h.length = 32 then
        match alistLookup elements h with
        | some obj => { status := 200, body := some obj.data }
        | none => { status := 404, body := none }
      else { status := 400, body := none }
    | none => { status := 400, body := none }

theorem alistInsert_mem_subset {κ α : Type} [DecidableEq κ]
    (m : List (κ × α)) (k : κ) (v : α) (x : κ × α)
    (hx : x ∈ alistInsert m k v) : x = (k, v) ∨ x ∈ m := by
  induction m with
  | nil =>
    simp [alistInsert] at hx
    exact Or.inl hx
  | cons kv t ih =>
    simp only [alistInsert] at hx
    by_cases hk : k = kv.1
    · rw [if_pos hk] at hx
      rcases List.mem_cons.mp hx with rfl | hx
      · exact Or.inl rfl
      · exact Or.inr (List.mem_cons_of_mem _ hx)
    · rw [if_neg hk] at hx
      rcases List.mem_cons.mp hx with rfl | hx
      · exact Or.inr (List.mem_cons_self _ _)
      · rcases ih hx with h | h
        · exact Or.inl h
        · exact Or.inr (List.mem_cons_of_mem _ h)

/-- Every entry of a snapshot-built store is keyed by the digest of its own
bytes. -/
theorem elements_from_snapshot_key_digest (env : CryptoEnv) (s : Snapshot) :
    ∀ kv ∈ elements_from_snapshot env s, kv.1 = env.sha256 kv.2.data := by
  unfold elements_from_snapshot
  have main : ∀ (l : List (List Nat × List Nat)) (acc : List (List Nat × RepoContentElement)),
      (∀ kv ∈ acc, kv.1 = env.sha256 kv.2.data) →
      ∀ kv ∈ l.foldl (fun acc ud => alistInsert acc (env.sha256 ud.2) ⟨ud.1, ud.2⟩) acc,
        kv.1 = env.sha256 kv.2.data := by
    intro l
    induction l with
    | nil => intro acc hacc; exact hacc
    | cons ud t ih =>
      intro acc hacc
      rw [List.foldl_cons]
      refine ih _ ?_
      intro kv hkv
      rcases alistInsert_mem_subset _ _ _ _ hkv with rfl | h
      · rfl
      · exact hacc kv h
  exact main s.publishes [] (by simp)

/-- Claim C10: dispatch of the named-information route — wrong algorithm
or malformed value give 400, an unknown digest gives 404, and a hit gives
200 with a body whose digest (under the store's content-addressing
invariant, which snapshot-built stores satisfy) is the requested value. -/
theorem C10_named_information (sha : List Nat → List Nat)
    (elements : List (List Nat × RepoContentElement))
    (hstore : ∀ kv ∈ elements, kv.1 = sha kv.2.data) (alg val : List Nat) :
    (alg ≠ sha256Label → named_information elements alg val = ⟨400, none⟩) ∧
    (alg = sha256Label → b64Decode val = none →
      named_information elements alg val = ⟨400, none⟩) ∧
    (∀ h, alg = sha256Label → b64Decode val = some h → h.length ≠ 32 →
      named_information elements alg val = ⟨400, none⟩) ∧
    (∀ h, alg = sha256Label → b64Decode val = some h → h.length = 32 →
      alistLookup elements h = none →
      named_information elements alg val = ⟨404, none⟩) ∧
    (∀ h obj, alg = sha256Label → b64Decode val = some h → h.length = 32 →
      alistLookup elements h = some obj →
      named_information elements alg val = ⟨200, some obj.data⟩ ∧ sha obj.data = h) := by
  refine ⟨?_, ?_, ?_, ?_, ?_⟩
  · intro halg
    simp [named_information, halg]
  · intro halg hdec
    simp [named_information, halg, hdec]
  · intro h halg hdec hlen
    simp [named_information, halg, hdec, hlen]
  · intro h halg hdec hlen hlook
    simp [named_information, halg, hdec, hlen, hlook]
  · intro h obj halg hdec hlen hlook
    constructor
    · simp [named_information, halg, hdec, hlen, hlook]
    · have hmem := alistLookup_mem elements h obj hlook
      exact (hstore (h, obj) hmem).symm

/-- Closed instance of C10 on a tiny snapshot-built store. -/
theorem C10_named_information_witness :
    named_information (elements_from_snapshot
      { sha256 := fun l => l, decodeManifest := fun _ => none }
      { session_id := 1, serial := 1, publishes := [([10], [1, 2])] }) [0] [] =
      { status := 400, body := none } :=
  (C10_named_information (fun l => l)
    (elements_from_snapshot
      { sha256 := fun l => l, decodeManifest := fun _ => none }
      { session_id := 1, serial := 1, publishes := [([10], [1, 2])] })
    (by decide) [0] []).1 (by decide)

end EPIC
